import Mathlib

/-!
Shallow embedding of the backrun/swap extraction scripts
(`extract_backruns.py`, `extract_swaps.py`) and proofs of the spec claims.

Python semantics are modelled as follows:
* a raw JSON object field that may be absent is an `Option`;
* `obj["key"]` (bracket access, may raise `KeyError`) is `dictGet`;
* `obj.get("key", d)` is `Option.getD`;
* a Python function that may raise is an `Except String` computation;
* `try ... except` is `Except` plus an explicit catch;
* Python byte strings are `List Nat` (each entry < 256 for well-formed input);
* Python string slicing/lowercasing is modelled on the underlying character
  list (`pyTake`, `pyDrop`, `pyLastN`, `pyLower`); inputs here are ASCII, where
  `Char.toLower` agrees with Python `str.lower`.
Exception message texts are representative tags, not byte-for-byte copies of
CPython messages; no claim depends on message contents.
-/

/-- `obj["key"]`: bracket access on a JSON object, raising `KeyError` when the
key is absent. -/
def dictGet (key : String) (v : Option α) : Except String α :=
  match v with
  | some x => .ok x
  | none => .error ("KeyError: " ++ key)

/-- `xs[i]` on a Python list: raises `IndexError` when out of range. -/
def listGet (xs : List α) (i : Nat) : Except String α :=
  match xs[i]? with
  | some x => .ok x
  | none => .error "IndexError: list index out of range"

/-- Python `s[:n]` (character slice). -/
def pyTake (s : String) (n : Nat) : String := ⟨s.data.take n⟩

/-- Python `s[n:]` (character slice). -/
def pyDrop (s : String) (n : Nat) : String := ⟨s.data.drop n⟩

/-- Python `s[-n:]` for `n > 0`: the last `n` characters (the whole string
when it is shorter than `n`). -/
def pyLastN (s : String) (n : Nat) : String := ⟨s.data.drop (s.data.length - n)⟩

/-- Python `s.lower()` on ASCII strings. -/
def pyLower (s : String) : String := ⟨s.data.map Char.toLower⟩

/-- Python `len(s)` for strings. -/
def pyLen (s : String) : Nat := s.data.length

/-- One hexadecimal digit, as accepted by `int(h, 16)` / `bytes.fromhex`. -/
def hexDigit (c : Char) : Except String Nat :=
  match c with
  | '0' => .ok 0 | '1' => .ok 1 | '2' => .ok 2 | '3' => .ok 3 | '4' => .ok 4
  | '5' => .ok 5 | '6' => .ok 6 | '7' => .ok 7 | '8' => .ok 8 | '9' => .ok 9
  | 'a' => .ok 10 | 'b' => .ok 11 | 'c' => .ok 12 | 'd' => .ok 13
  | 'e' => .ok 14 | 'f' => .ok 15
  | 'A' => .ok 10 | 'B' => .ok 11 | 'C' => .ok 12 | 'D' => .ok 13
  | 'E' => .ok 14 | 'F' => .ok 15
  | _ => .error "ValueError: invalid hexadecimal digit"

/-- Strip a leading `0x` / `0X` from a character list (as both `int(h, 16)`
and the script's `hex_to_bytes` do). -/
def stripHexPrefix : List Char → List Char
  | '0' :: 'x' :: r => r
  | '0' :: 'X' :: r => r
  | r => r

/-- Accumulate hex digits big-endian. -/
def hexVal : List Char → Except String Nat
  | [] => .ok 0
  | c :: r => do
    let d ← hexDigit c
    let v ← hexVal r
    .ok (d * 16 ^ r.length + v)

/-- `hex_to_int(h) = int(h, 16)`, restricted to the unsigned hex literals the
scripts feed it (no sign, no underscores, no surrounding whitespace). -/
def hex_to_int (h : String) : Except String Nat :=
  let cs := stripHexPrefix h.data
  if cs.isEmpty then .error "ValueError: invalid literal for int with base 16"
  else hexVal cs

/-- `bytes.fromhex` on a list of characters: pairs of hex digits, erroring on
an odd count or a non-hex character (the scripts never pass embedded spaces). -/
def hexPairs : List Char → Except String (List Nat)
  | [] => .ok []
  | [_] => .error "ValueError: non-hexadecimal number found in fromhex arg"
  | c1 :: c2 :: r => do
    let h1 ← hexDigit c1
    let h2 ← hexDigit c2
    let bs ← hexPairs r
    .ok ((h1 * 16 + h2) :: bs)

/-- `hex_to_bytes`: strip an optional `0x`/`0X` prefix, then `bytes.fromhex`. -/
def hex_to_bytes (h : String) : Except String (List Nat) :=
  hexPairs (stripHexPrefix h.data)

/-- Python `data[a:b]` on a byte string. -/
def pySlice (data : List Nat) (a b : Nat) : List Nat :=
  (data.drop a).take (b - a)

/-- `uint256_from_bytes(b) = int.from_bytes(b, "big")`. -/
def uint256_from_bytes (b : List Nat) : Nat :=
  b.foldl (fun acc x => acc * 256 + x) 0

/-- `int256_from_bytes`: big-endian unsigned value, reinterpreted as a signed
256-bit two's-complement integer. -/
def int256_from_bytes (b : List Nat) : Int :=
  let v : Int := (uint256_from_bytes b : Nat)
  if (uint256_from_bytes b) ≥ 2 ^ 255 then v - 2 ^ 256 else v

/-- Lowercase hex digit character for a value `< 16` (as `bytes.hex()` emits). -/
def hexDigitChar (n : Nat) : Char :=
  match n with
  | 0 => '0' | 1 => '1' | 2 => '2' | 3 => '3' | 4 => '4'
  | 5 => '5' | 6 => '6' | 7 => '7' | 8 => '8' | 9 => '9'
  | 10 => 'a' | 11 => 'b' | 12 => 'c' | 13 => 'd' | 14 => 'e'
  | _ => 'f'

/-- One byte as two lowercase hex characters (`bytes.hex()` per byte). -/
def byteHex (b : Nat) : List Char := [hexDigitChar (b / 16), hexDigitChar (b % 16)]

/-- `bytes.hex()`: lowercase hex string of a byte string. -/
def bytesToHex (bs : List Nat) : String := ⟨(bs.map byteHex).flatten⟩

/-- Python `hex(n)` for `n : Nat`: `0x`-prefixed lowercase hex. -/
def pyHex (n : Nat) : String := "0x" ++ ⟨Nat.toDigits 16 n⟩

/-- `addr_from_topic(topic)`: `"0x" + topic[-40:].lower()`. -/
def addr_from_topic (topic : String) : String :=
  "0x" ++ pyLower (pyLastN topic 40)

/-- A JSON number field that may arrive either as a hex string or as an
already-decoded integer (the scripts defend against both with
`isinstance(v, str)`). -/
inductive JsonIdx
  | str (s : String)
  | num (n : Nat)
deriving DecidableEq, Repr

/-- A raw log entry as returned by the query endpoint.  Every field may be
absent (`none`); the scripts access some with brackets and some with `.get`. -/
structure LogEntry where
  address : Option String := none
  topics : Option (List String) := none
  data : Option String := none
  logIndex : Option JsonIdx := none
  transactionHash : Option String := none
  transactionIndex : Option JsonIdx := none
  blockNumber : Option JsonIdx := none
deriving DecidableEq, Repr

/-- Fixed constants from `extract_backruns.py`. -/
def TARGET_CONTRACT : String := "0x74c51815f070803d53bb6879df6fc1648d741212"

def BACKRUN_TOPIC0 : String :=
  "0x4866868bf8ccc56c236dc0ed3f2d82a498301866dc9edbf731a9b2b4c8716fd7"

def V3_SWAP_TOPIC0 : String :=
  "0xc42079f94a6350d7e6235f29174924f928cc2ac818eb64fed8004e115fbcca67"

def CUSTOM_SWAP_TOPIC0 : String :=
  "0x121cb44ee54098b1a04743c487e7460d8dd429b27f88b1f4d4767396e1a59f79"

/-- Fields of a decoded V3 swap (the script stores every number as a decimal
string via `str(...)`). -/
structure V3Fields where
  sender : String
  recipient : String
  amount0 : String
  amount1 : String
  sqrtPriceX96 : String
  liquidity : String
  tick : String
deriving DecidableEq, Repr

/-- Fields of a best-effort decoded custom swap: up to two indexed addresses
and the raw 32-byte words `word0 ... word7` in order. -/
structure CustomFields where
  topic1_addr : Option String
  topic2_addr : Option String
  words : List String
deriving DecidableEq, Repr

/-- A decoded swap record: the `"type": "v3"` / `"type": "custom"` dictionaries
or the `{"decode_error": msg}` marker. -/
inductive Decoded
  | v3 (f : V3Fields)
  | custom (f : CustomFields)
  | decodeError (msg : String)
deriving DecidableEq, Repr

/-- Body of `decode_v3_swap`'s `try` block; any raised error is caught by the
wrapper below. -/
def decode_v3_body (l : LogEntry) : Except String (Option Decoded) := do
  let dstr ← dictGet "data" l.data
  let data ← hex_to_bytes dstr
  if data.length < 160 then
    return none
  let ts ← dictGet "topics" l.topics
  let t1 ← listGet ts 1
  let t2 ← listGet ts 2
  return some (.v3 {
    sender := addr_from_topic t1
    recipient := addr_from_topic t2
    amount0 := toString (int256_from_bytes (pySlice data 0 32))
    amount1 := toString (int256_from_bytes (pySlice data 32 64))
    sqrtPriceX96 := toString (uint256_from_bytes (pySlice data 64 96))
    liquidity := toString (uint256_from_bytes (pySlice data 96 128))
    tick := toString (int256_from_bytes (pySlice data 128 160)) })

/-- `decode_v3_swap`: never raises — exceptions become a decode-error marker. -/
def decode_v3_swap (l : LogEntry) : Option Decoded :=
  match decode_v3_body l with
  | .ok r => r
  | .error e => some (.decodeError e)

/-- Body of `decode_custom_swap`'s `try` block. -/
def decode_custom_body (l : LogEntry) : Except String (Option Decoded) := do
  let dstr ← dictGet "data" l.data
  let data ← hex_to_bytes dstr
  let topics := l.topics.getD []
  let t1a : Option String :=
    if 2 ≤ topics.length then some (addr_from_topic (topics.getD 1 "")) else none
  let t2a : Option String :=
    if 3 ≤ topics.length then some (addr_from_topic (topics.getD 2 "")) else none
  let nWords := data.length / 32
  let words := (List.range (min nWords 8)).map
    (fun i => toString (int256_from_bytes (pySlice data (i * 32) ((i + 1) * 32))))
  return some (.custom { topic1_addr := t1a, topic2_addr := t2a, words := words })

/-- `decode_custom_swap`: best-effort decode, never raises. -/
def decode_custom_swap (l : LogEntry) : Option Decoded :=
  match decode_custom_body l with
  | .ok r => r
  | .error e => some (.decodeError e)

/-- `decode_swap`: dispatch on `log_entry["topics"][0].lower()`.  The topic
access itself is OUTSIDE any `try`, so a missing or empty topics list raises. -/
def decode_swap (l : LogEntry) : Except String (Option Decoded) := do
  let ts ← dictGet "topics" l.topics
  let t0h ← listGet ts 0
  let t0 := pyLower t0h
  if t0 = V3_SWAP_TOPIC0 then
    return decode_v3_swap l
  else if t0 = CUSTOM_SWAP_TOPIC0 then
    return decode_custom_swap l
  else
    return none

/-- The dictionary built by `raw_log(log_entry)`. -/
structure RawLogOut where
  address : String
  topics : List String
  data : String
  logIndex : Option JsonIdx
  transactionHash : Option String
  blockNumber : Option JsonIdx
deriving DecidableEq, Repr

/-- `raw_log`: normalized copy of a log entry (defaults for missing keys). -/
def raw_log (l : LogEntry) : RawLogOut :=
  { address := pyLower (l.address.getD "")
    topics := l.topics.getD []
    data := l.data.getD "0x"
    logIndex := l.logIndex
    transactionHash := l.transactionHash
    blockNumber := l.blockNumber }

/-- Result of `parse_backrun_log`. -/
structure BackrunParsed where
  pool : String
  profit_raw : String
  profit_token : String
deriving DecidableEq, Repr

/-- `parse_backrun_log`: pool from `topics[1]`, profit from `data[96:128]`,
profit token from `data[140:160]`.  Raises (is `.error`) on a missing topic
or undecodable data hex. -/
def parse_backrun_log (l : LogEntry) : Except String BackrunParsed := do
  let ts ← dictGet "topics" l.topics
  let topic1 ← listGet ts 1
  let pool := "0x" ++ pyLower (pyLastN topic1 40)
  let dstr ← dictGet "data" l.data
  let data ← hex_to_bytes dstr
  let profit := uint256_from_bytes (pySlice data 96 128)
  let token := "0x" ++ bytesToHex (pySlice data 140 160)
  return { pool := pool, profit_raw := toString profit, profit_token := token }

/-! ## Query Client (`rpc_call`): retry loop with exponential backoff

`rpc_call` increments the global `_rpc_id` once and serializes the payload
once, BEFORE the `for attempt in range(retries)` loop; every attempt re-sends
that same serialized envelope.  The environment is modelled by an attempt
oracle mapping the attempt number to what that attempt does. -/

/-- What one network attempt does: raise a transport-level exception, or
deliver a parsed response body (with an optional protocol-level `"error"`
field and an optional `"result"` field). -/
inductive AttemptResult
  | exc (msg : String)
  | body (err : Option String) (result : Option String)
deriving DecidableEq, Repr

/-- Whether an attempt outcome is a failure for retry purposes: a transport
exception, or a body carrying an `"error"` field (which the script turns into
a raised `RuntimeError` inside the same `try`). -/
def attemptFails : AttemptResult → Bool
  | .exc _ => true
  | .body (some _) _ => true
  | .body none _ => false

/-- The exception message produced by a failing attempt. -/
def attemptMsg : AttemptResult → String
  | .exc m => m
  | .body (some e) _ => "RPC error: " ++ e
  | .body none _ => ""

/-- The value returned by a successful attempt (`body.get("result")`). -/
def attemptValue : AttemptResult → Option String
  | .body _ r => r
  | .exc _ => none

/-- How one `rpc_call` ends: the function returns a value (possibly `None`),
or re-raises the final failure. -/
inductive RpcOutcome
  | returned (r : Option String)
  | raised (msg : String)
deriving DecidableEq, Repr

/-- Backoff before retry number `k` (1-based): `BACKOFF_BASE ** k` seconds
with `BACKOFF_BASE = 1.5`; exact in `ℚ` (and exact in double precision for
the small exponents used). -/
def backoffWait (k : Nat) : ℚ := (3 / 2 : ℚ) ^ k

/-- Observable trace of one `rpc_call`: the request id serialized into each
sent attempt (in send order), the sleeps performed (in order), and the final
outcome. -/
structure RpcTrace where
  ids : List Nat
  waits : List ℚ
  outcome : RpcOutcome
deriving DecidableEq, Repr

/-- The `for attempt in range(retries)` loop of `rpc_call`, recursing over
the list of remaining attempt indices; `id` is the request id baked into the
serialized payload (identical for every attempt of this call).  An exhausted
index list without a `return` (only when `retries = 0`) makes Python fall off
the function and return `None`. -/
def rpcLoop (id : Nat) (oracle : Nat → AttemptResult) (retries : Nat) :
    List Nat → RpcTrace
  | [] => { ids := [], waits := [], outcome := .returned none }
  | a :: rest =>
    let r := oracle a
    if attemptFails r then
      if a < retries - 1 then
        let t := rpcLoop id oracle retries rest
        { ids := id :: t.ids
          waits := backoffWait (a + 1) :: t.waits
          outcome := t.outcome }
      else
        { ids := [id], waits := [], outcome := .raised (attemptMsg r) }
    else
      { ids := [id], waits := [], outcome := .returned (attemptValue r) }

/-- `rpc_call`: bump the global `_rpc_id`, serialize the envelope once with
that id, then run the retry loop over `range(retries)`.  Returns the new
counter and the trace. -/
def rpc_call (rpcId : Nat) (retries : Nat) (oracle : Nat → AttemptResult) :
    Nat × RpcTrace :=
  (rpcId + 1, rpcLoop (rpcId + 1) oracle retries (List.range retries))

/-- A sequence of `rpc_call`s threading the global `_rpc_id` counter; each
call has its own attempt oracle.  Returns, per call, the id it serialized and
its trace. -/
def runCalls (rpcId : Nat) (retries : Nat) :
    List (Nat → AttemptResult) → Nat × List (Nat × RpcTrace)
  | [] => (rpcId, [])
  | o :: os =>
    let (id1, tr) := rpc_call rpcId retries o
    let (idN, rest) := runCalls id1 retries os
    (idN, (id1, tr) :: rest)

/-! ## Correlation engine of `extract_backruns.py`

The remote endpoint is modelled as an oracle of total functions: each call is
assumed to complete with the oracle's value (the retrying transport layer is
modelled separately by `rpc_call`).  `process_tx` returns the sequence of
records written to the five output streams, the updated block cache and the
`backrun_count` return value; a raised Python exception is `.error`. -/

/-- A transaction receipt (fields the scripts touch). -/
structure Receipt where
  blockNumber : Option String := none
  transactionIndex : Option JsonIdx := none
  fromAddr : Option String := none
  logs : Option (List LogEntry) := none
deriving DecidableEq, Repr

/-- A transaction body (fields the scripts touch); `toAddr` is the `"to"`
key. -/
structure TxObj where
  toAddr : Option String := none
  input : Option String := none
  fromAddr : Option String := none
deriving DecidableEq, Repr

/-- A block header (field the scripts touch). -/
structure Block where
  timestamp : Option String := none
deriving DecidableEq, Repr

/-- The filter dictionary passed to the ranged log query `eth_getLogs`. -/
structure GetLogsQuery where
  fromBlock : String
  toBlock : String
  address : String
  topics : List (List String)
deriving DecidableEq, Repr

/-- Oracle for the remote endpoint used by `extract_backruns.py`. -/
structure Rpc where
  getReceipt : String → Option Receipt
  getTx : String → Option TxObj
  getBlock : String → Option Block
  getLogs : GetLogsQuery → Option (List LogEntry)

/-- The block-metadata cache: a dict from hex block-number key to the fetched
block (which may itself be `None`). -/
def BlockCache := List (String × Option Block)

/-- Dict lookup: `some v` when the key is present (with cached value `v`). -/
def cacheLookup : BlockCache → String → Option (Option Block)
  | [], _ => none
  | (k', v) :: rest, k => if k' = k then some v else cacheLookup rest k

/-- Dict insert (only performed when the key is absent). -/
def cacheInsert (c : BlockCache) (k : String) (v : Option Block) : BlockCache :=
  (k, v) :: c

/-- `v if isinstance(v, str) else obj.get(k, 0)`: the transaction-index read
used for receipts and for ranged-query logs. -/
def parseTxIndexField : Option JsonIdx → Except String Nat
  | some (.str s) => hex_to_int s
  | some (.num n) => .ok n
  | none => .ok 0

/-- `hex_to_int(v) if isinstance(v, str) else v` for `logIndex`: absent stays
`None`. -/
def parseLogIndexField : Option JsonIdx → Except String (Option Nat)
  | some (.str s) => (hex_to_int s).map some
  | some (.num n) => .ok (some n)
  | none => .ok none

/-- Same read for the `blockNumber` field of a queried log. -/
def parseBlockNumberField : Option JsonIdx → Except String (Option Nat)
  | some (.str s) => (hex_to_int s).map some
  | some (.num n) => .ok (some n)
  | none => .ok none

/-- The cache-or-fetch block-timestamp resolution (lines 238-244 for the
origin block and 353-359 for each offset block): store the query result —
null included — under the block's hex key, then format the timestamp, or use
`""` when the block is null.  `fmt` models
`time.strftime("%Y-%m-%dT%H:%M:%SZ", time.gmtime(ts))`. -/
def resolveBlockTime (key : String) (cache : BlockCache) (rpc : Rpc)
    (fmt : Nat → String) : Except String (String × BlockCache) := do
  let cache' := if (cacheLookup cache key).isSome then cache
                else cacheInsert cache key (rpc.getBlock key)
  match cacheLookup cache' key with
  | some (some blk) => do
    let tsStr ← dictGet "timestamp" blk.timestamp
    let ts ← hex_to_int tsStr
    .ok (fmt ts, cache')
  | _ => .ok ("", cache')

/-- Record written to `backruns.jsonl`. -/
structure BackrunRec where
  tx_hash : String
  block_number : Nat
  block_time : String
  backrun_log_index : Option Nat
  pool : String
  profit_raw : String
  profit_token : String
  tx_to : String
  tx_input_selector : String
  raw_backrun_log : RawLogOut
deriving DecidableEq, Repr

/-- Record written to `tx_pool_swaps.jsonl`. -/
structure TxSwapRec where
  tx_hash : String
  block_number : Nat
  pool : String
  swap_tx_hash : String
  swap_log_index : Option Nat
  swap_topic0 : String
  decoded : Option Decoded
  raw_log : RawLogOut
deriving DecidableEq, Repr

/-- Record written to `same_block_pool_swaps.jsonl`. -/
structure SBRec where
  origin_tx_hash : String
  origin_block_number : Nat
  pool : String
  observed_block_number : Nat
  observed_block_time : String
  swap_tx_hash : String
  swap_tx_index : Nat
  swap_log_index : Option Nat
  swap_topic0 : String
  decoded : Option Decoded
  raw_log : RawLogOut
deriving DecidableEq, Repr

/-- Record written to `next_blocks_pool_swaps.jsonl`. -/
structure NBRec where
  origin_tx_hash : String
  origin_block_number : Nat
  pool : String
  observed_block_number : Option Nat
  observed_block_time : String
  swap_tx_hash : String
  swap_log_index : Option Nat
  swap_topic0 : String
  decoded : Option Decoded
  raw_log : RawLogOut
deriving DecidableEq, Repr

/-- One row of `summary.csv`. -/
structure SummaryRow where
  tx_hash : String
  block_number : Nat
  pool : String
  profit_raw : String
  profit_token : String
  tx_to : String
  tx_input_selector : String
  n_swaps_in_tx : Nat
  n_swaps_same_block_after : Nat
  n_swaps_next_3_blocks : Nat
deriving DecidableEq, Repr

/-- One write to any of the five output streams, in write order. -/
inductive OutRec
  | backrun (r : BackrunRec)
  | txSwap (r : TxSwapRec)
  | sameBlockSwap (r : SBRec)
  | nextSwap (r : NBRec)
  | summary (r : SummaryRow)
  | errorRec (tx_hash : String) (reason : String)
deriving DecidableEq, Repr

/-- The topic filter `[[V3_SWAP_TOPIC0, CUSTOM_SWAP_TOPIC0]]` used by every
swap window query of the primary flow. -/
def swapTopicsFilter : List (List String) := [[V3_SWAP_TOPIC0, CUSTOM_SWAP_TOPIC0]]

/-- Same-transaction window (lines 287-310): scan the receipt's own logs for
swap-signature logs emitted by the pool. -/
def sameTxSwaps (tx_hash : String) (block_number : Nat) (pool : String) :
    List LogEntry → Except String (List TxSwapRec)
  | [] => .ok []
  | sl :: rest =>
    if pyLower (sl.address.getD "") ≠ pool then
      sameTxSwaps tx_hash block_number pool rest
    else
      match sl.topics with
      | none => sameTxSwaps tx_hash block_number pool rest
      | some [] => sameTxSwaps tx_hash block_number pool rest
      | some (t0 :: _) =>
        if pyLower t0 ∉ [V3_SWAP_TOPIC0, CUSTOM_SWAP_TOPIC0] then
          sameTxSwaps tx_hash block_number pool rest
        else do
          let decoded ← decode_swap sl
          let slIndex ← parseLogIndexField sl.logIndex
          let r : TxSwapRec :=
            { tx_hash := tx_hash, block_number := block_number, pool := pool
              swap_tx_hash := tx_hash, swap_log_index := slIndex
              swap_topic0 := pyLower t0, decoded := decoded, raw_log := raw_log sl }
          let rest' ← sameTxSwaps tx_hash block_number pool rest
          .ok (r :: rest')

/-- Same-block-after window body (lines 317-344): skip logs from the origin
transaction, skip transaction indices not strictly greater than the origin's,
decode and emit the rest. -/
def sameBlockAfterLoop (tx_hash : String) (tx_index : Nat) (block_number : Nat)
    (block_time : String) (pool : String) :
    List LogEntry → Except String (List SBRec)
  | [] => .ok []
  | sl :: rest => do
    let slTxHash := pyLower (sl.transactionHash.getD "")
    if slTxHash = tx_hash then
      sameBlockAfterLoop tx_hash tx_index block_number block_time pool rest
    else do
      let slTxIndex ← parseTxIndexField sl.transactionIndex
      if slTxIndex ≤ tx_index then
        sameBlockAfterLoop tx_hash tx_index block_number block_time pool rest
      else do
        let decoded ← decode_swap sl
        let slIndex ← parseLogIndexField sl.logIndex
        let topics ← dictGet "topics" sl.topics
        let t0h ← listGet topics 0
        let r : SBRec :=
          { origin_tx_hash := tx_hash, origin_block_number := block_number
            pool := pool, observed_block_number := block_number
            observed_block_time := block_time, swap_tx_hash := slTxHash
            swap_tx_index := slTxIndex, swap_log_index := slIndex
            swap_topic0 := pyLower t0h, decoded := decoded, raw_log := raw_log sl }
        let rest' ← sameBlockAfterLoop tx_hash tx_index block_number block_time pool rest
        .ok (r :: rest')

/-- Same-block-after window (lines 314-344), applied to the ranged query's
result (a `None` result is falsy and emits nothing). -/
def sameBlockAfterRecords (tx_hash : String) (tx_index : Nat) (block_number : Nat)
    (block_time : String) (pool : String) (queryResult : Option (List LogEntry)) :
    Except String (List SBRec) :=
  match queryResult with
  | none => .ok []
  | some ls => sameBlockAfterLoop tx_hash tx_index block_number block_time pool ls

/-- Build one `next_blocks_pool_swaps.jsonl` record (lines 366-385). -/
def mkNBRec (tx_hash : String) (block_number : Nat) (pool : String)
    (nb_time : String) (sl : LogEntry) : Except String NBRec := do
  let decoded ← decode_swap sl
  let slIndex ← parseLogIndexField sl.logIndex
  let obNum ← parseBlockNumberField sl.blockNumber
  let topics ← dictGet "topics" sl.topics
  let t0h ← listGet topics 0
  .ok { origin_tx_hash := tx_hash, origin_block_number := block_number
        pool := pool, observed_block_number := obNum
        observed_block_time := nb_time
        swap_tx_hash := pyLower (sl.transactionHash.getD "")
        swap_log_index := slIndex, swap_topic0 := pyLower t0h
        decoded := decoded, raw_log := raw_log sl }

/-- The `for sl in swap_logs` loop of one next-block window (lines 366-385). -/
def nbLogsLoop (tx_hash : String) (block_number : Nat) (pool : String)
    (nb_time : String) : List LogEntry → Except String (List NBRec)
  | [] => .ok []
  | sl :: rest => do
    let r ← mkNBRec tx_hash block_number pool nb_time sl
    let rest' ← nbLogsLoop tx_hash block_number pool nb_time rest
    .ok (r :: rest')

/-- One iteration of the `for offset in (1, 2, 3)` loop (lines 348-385):
resolve the offset block's metadata through the cache, issue the single-block
ranged query, and emit every match (a falsy — `None` or empty — result emits
nothing but the query was still issued). -/
def nextBlockOffset (tx_hash : String) (block_number : Nat) (pool : String)
    (offset : Nat) (cache : BlockCache) (rpc : Rpc) (fmt : Nat → String) :
    Except String (List NBRec × GetLogsQuery × BlockCache) := do
  let nbHex := pyHex (block_number + offset)
  let (nbTime, cache') ← resolveBlockTime nbHex cache rpc fmt
  let q : GetLogsQuery :=
    { fromBlock := nbHex, toBlock := nbHex, address := pool, topics := swapTopicsFilter }
  match rpc.getLogs q with
  | none => .ok ([], q, cache')
  | some ls => do
    let recs ← nbLogsLoop tx_hash block_number pool nbTime ls
    .ok (recs, q, cache')

/-- The whole next-blocks window: the loop body unrolled over the literal
tuple `(1, 2, 3)`.  Also returns the ranged queries issued, in order. -/
def nextBlocksRun (tx_hash : String) (block_number : Nat) (pool : String)
    (cache : BlockCache) (rpc : Rpc) (fmt : Nat → String) :
    Except String (List NBRec × List GetLogsQuery × BlockCache) := do
  let (r1, q1, c1) ← nextBlockOffset tx_hash block_number pool 1 cache rpc fmt
  let (r2, q2, c2) ← nextBlockOffset tx_hash block_number pool 2 c1 rpc fmt
  let (r3, q3, c3) ← nextBlockOffset tx_hash block_number pool 3 c2 rpc fmt
  .ok (r1 ++ r2 ++ r3, [q1, q2, q3], c3)

/-- `tx_input_raw[:10].lower() if len(tx_input_raw) >= 10 else tx_input_raw.lower()`. -/
def txInputSelectorOf (raw : String) : String :=
  if 10 ≤ pyLen raw then pyLower (pyTake raw 10) else pyLower raw

/-- The backrun-log filter (lines 249-254). -/
def isBackrunLog (l : LogEntry) : Bool :=
  (pyLower (l.address.getD "") == TARGET_CONTRACT) &&
  decide (2 ≤ (l.topics.getD []).length) &&
  (match l.topics with
   | some (t0 :: _) => pyLower t0 == BACKRUN_TOPIC0
   | _ => false)

/-- Everything done for one discovered backrun log (lines 263-393): emit the
backrun record, then the three windows, then the summary row. -/
def processBackrunLog (tx_hash : String) (block_number : Nat) (block_hex : String)
    (block_time : String) (tx_to tx_input_selector : String) (tx_index : Nat)
    (logs : List LogEntry) (rpc : Rpc) (fmt : Nat → String) (bl : LogEntry)
    (cache : BlockCache) : Except String (List OutRec × BlockCache) := do
  let parsed ← parse_backrun_log bl
  let pool := parsed.pool
  let blIndex ← parseLogIndexField bl.logIndex
  let backrunRec : BackrunRec :=
    { tx_hash := tx_hash, block_number := block_number, block_time := block_time
      backrun_log_index := blIndex, pool := pool
      profit_raw := parsed.profit_raw, profit_token := parsed.profit_token
      tx_to := tx_to, tx_input_selector := tx_input_selector
      raw_backrun_log := raw_log bl }
  let txRecs ← sameTxSwaps tx_hash block_number pool logs
  let sbQuery : GetLogsQuery :=
    { fromBlock := block_hex, toBlock := block_hex, address := pool
      topics := swapTopicsFilter }
  let sbRecs ← sameBlockAfterRecords tx_hash tx_index block_number block_time pool
    (rpc.getLogs sbQuery)
  let (nbRecs, _nbQueries, cache') ← nextBlocksRun tx_hash block_number pool cache rpc fmt
  let row : SummaryRow :=
    { tx_hash := tx_hash, block_number := block_number, pool := pool
      profit_raw := parsed.profit_raw, profit_token := parsed.profit_token
      tx_to := tx_to, tx_input_selector := tx_input_selector
      n_swaps_in_tx := txRecs.length
      n_swaps_same_block_after := sbRecs.length
      n_swaps_next_3_blocks := nbRecs.length }
  .ok (OutRec.backrun backrunRec :: (txRecs.map .txSwap ++ sbRecs.map .sameBlockSwap
       ++ nbRecs.map .nextSwap ++ [OutRec.summary row]), cache')

/-- The `for bl in backrun_logs` loop, threading the block cache and counting
`backrun_count`. -/
def backrunLoop (tx_hash : String) (block_number : Nat) (block_hex : String)
    (block_time : String) (tx_to tx_input_selector : String) (tx_index : Nat)
    (logs : List LogEntry) (rpc : Rpc) (fmt : Nat → String) :
    List LogEntry → BlockCache → Except String (List OutRec × BlockCache × Nat)
  | [], cache => .ok ([], cache, 0)
  | bl :: rest, cache => do
    let (out1, c1) ← processBackrunLog tx_hash block_number block_hex block_time
      tx_to tx_input_selector tx_index logs rpc fmt bl cache
    let (out2, c2, n) ← backrunLoop tx_hash block_number block_hex block_time
      tx_to tx_input_selector tx_index logs rpc fmt rest c1
    .ok (out1 ++ out2, c2, n + 1)

/-- `process_tx` of `extract_backruns.py` (lines 218-395).  Returns the write
trace of a completed call, the updated cache, and the returned
`backrun_count`; `.error` models a raised exception (caught by `main`'s
per-transaction handler). -/
def process_tx (tx_hash : String) (cache : BlockCache) (rpc : Rpc)
    (fmt : Nat → String) : Except String (List OutRec × BlockCache × Nat) :=
  match rpc.getReceipt tx_hash with
  | none => .ok ([.errorRec tx_hash "receipt_null"], cache, 0)
  | some receipt => do
    let txObj := rpc.getTx tx_hash
    let tx_to := match txObj with
      | some t => pyLower (t.toAddr.getD "")
      | none => ""
    let txInputRaw := match txObj with
      | some t => t.input.getD "0x"
      | none => "0x"
    let selector := txInputSelectorOf txInputRaw
    let blockHex ← dictGet "blockNumber" receipt.blockNumber
    let block_number ← hex_to_int blockHex
    let tx_index ← parseTxIndexField receipt.transactionIndex
    let (block_time, cache1) ← resolveBlockTime blockHex cache rpc fmt
    let logs := receipt.logs.getD []
    let backrunLogs := logs.filter isBackrunLog
    if backrunLogs.isEmpty then
      .ok ([.errorRec tx_hash "no_backrun_log"], cache1, 0)
    else
      backrunLoop tx_hash block_number blockHex block_time tx_to selector
        tx_index logs rpc fmt backrunLogs cache1

/-! ## Alternate flow: `extract_swaps.py` -/

/-- `addr_lower(a) = a.lower() if a else ""`. -/
def addr_lower (a : String) : String :=
  if a.isEmpty then "" else pyLower a

/-- Oracle for the remote endpoint used by `extract_swaps.py`.  `getTx` takes
the raw (possibly absent) transaction-hash parameter, as
`get_tx_from` passes `fl.get("transactionHash")` through unchecked. -/
structure SwapRpc where
  getReceipt : String → Option Receipt
  getTx : Option String → Option TxObj
  getLogs : GetLogsQuery → Option (List LogEntry)

/-- `get_tx_from`: the lowercase `from` address of a transaction, `""` when
the body is absent. -/
def get_tx_from (rpc : SwapRpc) (txh : Option String) : String :=
  match rpc.getTx txh with
  | some t => addr_lower (t.fromAddr.getD "")
  | none => ""

/-- `parse_log_index(val)`: hex-parse a string, keep an int, treat a falsy
value as 0. -/
def parse_log_index : Option JsonIdx → Except String Nat
  | some (.str s) => hex_to_int s
  | some (.num n) => .ok n
  | none => .ok 0

/-- `parse_block_number(val)`: same convention. -/
def parse_block_number : Option JsonIdx → Except String Nat
  | some (.str s) => hex_to_int s
  | some (.num n) => .ok n
  | none => .ok 0

/-- One follow-up swap entry inside a `swap_followups.jsonl` record. -/
structure FollowupSwap where
  tx_hash : String
  block_number : Nat
  block_offset : Nat
  log_index : Nat
  swapper : String
  raw_topics : List String
  raw_data : String
deriving DecidableEq, Repr

/-- One line of `swap_followups.jsonl`. -/
structure SwapRecord where
  original_tx : String
  block_number : Nat
  block_time : String
  pool : String
  swap_log_index : Nat
  swapper : String
  raw_topics : List String
  raw_data : String
  n_followup_swaps : Nat
  followup_swaps : List FollowupSwap
deriving DecidableEq, Repr

/-- Alternate-flow same-block window body (lines 140-159): identical skip
rules to the primary flow, then one sender lookup per kept log. -/
def followupSameBlockLoop (rpc : SwapRpc) (tx_hash : String) (tx_index : Nat) :
    List LogEntry → Except String (List FollowupSwap)
  | [] => .ok []
  | fl :: rest => do
    let flTx := addr_lower (fl.transactionHash.getD "")
    if flTx = pyLower tx_hash then
      followupSameBlockLoop rpc tx_hash tx_index rest
    else do
      let flTxIndex ← parseTxIndexField fl.transactionIndex
      if flTxIndex ≤ tx_index then
        followupSameBlockLoop rpc tx_hash tx_index rest
      else do
        let swapper := get_tx_from rpc fl.transactionHash
        let bn ← parse_block_number fl.blockNumber
        let li ← parse_log_index fl.logIndex
        let r : FollowupSwap :=
          { tx_hash := pyLower (fl.transactionHash.getD "")
            block_number := bn, block_offset := 0, log_index := li
            swapper := swapper, raw_topics := fl.topics.getD []
            raw_data := fl.data.getD "0x" }
        let rest' ← followupSameBlockLoop rpc tx_hash tx_index rest
        .ok (r :: rest')

/-- Alternate-flow same-block window (lines 133-159) over the query result. -/
def followupSameBlock (rpc : SwapRpc) (tx_hash : String) (tx_index : Nat)
    (queryResult : Option (List LogEntry)) : Except String (List FollowupSwap) :=
  match queryResult with
  | none => .ok []
  | some ls => followupSameBlockLoop rpc tx_hash tx_index ls

/-- The single-block query issued for one offset of the alternate flow. -/
def followupOffsetQ (pool topic0 : String) (nb : Nat) : GetLogsQuery :=
  { fromBlock := pyHex nb, toBlock := pyHex nb, address := pool
    topics := [[topic0]] }

/-- Alternate-flow next-blocks loop body for one offset (lines 173-184). -/
def followupNextLoop (rpc : SwapRpc) (offset : Nat) :
    List LogEntry → Except String (List FollowupSwap)
  | [] => .ok []
  | fl :: rest => do
    let swapper := get_tx_from rpc fl.transactionHash
    let bn ← parse_block_number fl.blockNumber
    let li ← parse_log_index fl.logIndex
    let r : FollowupSwap :=
      { tx_hash := pyLower (fl.transactionHash.getD "")
        block_number := bn, block_offset := offset, log_index := li
        swapper := swapper, raw_topics := fl.topics.getD []
        raw_data := fl.data.getD "0x" }
    let rest' ← followupNextLoop rpc offset rest
    .ok (r :: rest')

/-- Alternate-flow next-blocks window (lines 162-184), unrolled over the
literal tuple `(1, 2, 3)`; also returns the queries issued. -/
def followupNextBlocks (rpc : SwapRpc) (topic0 pool : String)
    (block_number : Nat) : Except String (List FollowupSwap × List GetLogsQuery) := do
  let q1 := followupOffsetQ pool topic0 (block_number + 1)
  let r1 ← match rpc.getLogs q1 with
    | none => pure []
    | some ls => followupNextLoop rpc 1 ls
  let q2 := followupOffsetQ pool topic0 (block_number + 2)
  let r2 ← match rpc.getLogs q2 with
    | none => pure []
    | some ls => followupNextLoop rpc 2 ls
  let q3 := followupOffsetQ pool topic0 (block_number + 3)
  let r3 ← match rpc.getLogs q3 with
    | none => pure []
    | some ls => followupNextLoop rpc 3 ls
  .ok (r1 ++ r2 ++ r3, [q1, q2, q3])

/-- The swap-log filter of the alternate flow (lines 114-117). -/
def isTopic0Log (topic0 : String) (l : LogEntry) : Bool :=
  match l.topics with
  | some (t0 :: _) => pyLower t0 == pyLower topic0
  | _ => false

/-- The `for sl in swap_logs` loop of the alternate flow (lines 124-200):
one output record per swap log in the origin receipt. -/
def swapsLogLoop (rpc : SwapRpc) (topic0 tx_hash : String) (block_number : Nat)
    (block_time swapper : String) (tx_index : Nat) (receipt : Receipt) :
    List LogEntry → Except String (List SwapRecord)
  | [] => .ok []
  | sl :: rest => do
    let addr ← dictGet "address" sl.address
    let pool := addr_lower addr
    let slIndex ← parse_log_index sl.logIndex
    let sbHex ← dictGet "blockNumber" receipt.blockNumber
    let sbQ : GetLogsQuery :=
      { fromBlock := sbHex, toBlock := sbHex, address := pool, topics := [[topic0]] }
    let fu1 ← followupSameBlock rpc tx_hash tx_index (rpc.getLogs sbQ)
    let (fu2, _qs) ← followupNextBlocks rpc topic0 pool block_number
    let followups := fu1 ++ fu2
    let r : SwapRecord :=
      { original_tx := pyLower tx_hash, block_number := block_number
        block_time := block_time, pool := pool, swap_log_index := slIndex
        swapper := swapper, raw_topics := sl.topics.getD []
        raw_data := sl.data.getD "0x"
        n_followup_swaps := followups.length, followup_swaps := followups }
    let rest' ← swapsLogLoop rpc topic0 tx_hash block_number block_time swapper
      tx_index receipt rest
    .ok (r :: rest')

/-- `process_tx` of `extract_swaps.py` (lines 97-202): returns the records
appended to the output stream and the function's return value. -/
def swaps_process_tx (rpc : SwapRpc) (topic0 tx_hash : String)
    (block_number : Nat) (block_time : String) :
    Except String (List SwapRecord × Nat) :=
  match rpc.getReceipt tx_hash with
  | none => .ok ([], 0)
  | some receipt => do
    let tx_index ← parseTxIndexField receipt.transactionIndex
    let swapper := addr_lower (receipt.fromAddr.getD "")
    let swapLogs := (receipt.logs.getD []).filter (isTopic0Log topic0)
    if swapLogs.isEmpty then
      .ok ([], 0)
    else do
      let recs ← swapsLogLoop rpc topic0 tx_hash block_number block_time swapper
        tx_index receipt swapLogs
      .ok (recs, recs.length)

/-- One row of the pipe-delimited input file, as produced by `load_input`
(which lowercases the transaction hash). -/
structure InputRow where
  block_time : String
  tx_hash : String
  block_number : Nat
  expected_count : Nat
deriving DecidableEq, Repr

/-- The set of already-completed origin-transaction keys extracted from the
previously written output stream (lines 237-248): the `original_tx` field of
every parseable line. -/
def doneKeys (prior : List SwapRecord) : List String :=
  prior.map (·.original_tx)

/-- The resumable main loop of `extract_swaps.py` (lines 256-269): skip rows
whose key is already done; a raised per-row exception is logged and the run
continues.  Returns the appended records and, separately, the hashes of the
rows actually handed to `process_tx`, in order. -/
def swapsMainLoop (rpc : SwapRpc) (topic0 : String) (done : List String) :
    List InputRow → List SwapRecord × List String
  | [] => ([], [])
  | row :: rest =>
    if row.tx_hash ∈ done then
      swapsMainLoop rpc topic0 done rest
    else
      let out := match swaps_process_tx rpc topic0 row.tx_hash row.block_number
        row.block_time with
        | .ok (recs, _) => recs
        | .error _ => []
      let (outs, hs) := swapsMainLoop rpc topic0 done rest
      (out ++ outs, row.tx_hash :: hs)

/-! ## Theorems -/

/-- C8: when the receipt query returns null, `process_tx` writes exactly one
error record `{tx_hash, reason: "receipt_null"}`, emits no backrun, swap or
summary record for that hash, leaves the cache untouched and returns 0. -/
theorem receipt_null_single_error (tx_hash : String) (cache : BlockCache)
    (rpc : Rpc) (fmt : Nat → String) (h : rpc.getReceipt tx_hash = none) :
    process_tx tx_hash cache rpc fmt =
      .ok ([.errorRec tx_hash "receipt_null"], cache, 0) := by
  unfold process_tx
  rw [h]

/-- An endpoint oracle that answers null to everything (witness scaffolding). -/
def nullRpc : Rpc :=
  { getReceipt := fun _ => none, getTx := fun _ => none
    getBlock := fun _ => none, getLogs := fun _ => none }

theorem receipt_null_single_error_witness :
    nullRpc.getReceipt "0xabc" = none ∧
    process_tx "0xabc" ([] : BlockCache) nullRpc (fun _ => "") =
      .ok ([.errorRec "0xabc" "receipt_null"], ([] : BlockCache), 0) :=
  ⟨rfl, receipt_null_single_error "0xabc" [] nullRpc (fun _ => "") rfl⟩

/-- C2 counterexample: a raw log whose topics list is empty (as the claim
explicitly allows) makes `decode_swap` raise an `IndexError` instead of
returning a value. -/
theorem decode_swap_raises_on_empty_topics :
    decode_swap { topics := some [] } =
      .error "IndexError: list index out of range" := rfl

/-- C2 amended: `decode_swap` is total (never raises) for every raw log whose
topics list is present and nonempty — a decoded record, a decode-error
marker, or null for an unknown signature; with a missing or empty topics list
the unguarded `log_entry["topics"][0]` access raises. -/
theorem decode_swap_total_on_nonempty_topics (l : LogEntry) (t0 : String)
    (ts : List String) (h : l.topics = some (t0 :: ts)) :
    ∃ v, decode_swap l = .ok v := by
  unfold decode_swap dictGet listGet
  rw [h]
  simp only [List.getElem?_cons_zero, bind, Except.bind]
  split_ifs <;> exact ⟨_, rfl⟩

theorem decode_swap_total_on_nonempty_topics_witness :
    (LogEntry.topics { topics := some ["0xdead"] } = some ("0xdead" :: [])) ∧
    ∃ v, decode_swap { topics := some ["0xdead"] } = .ok v :=
  ⟨rfl, decode_swap_total_on_nonempty_topics { topics := some ["0xdead"] }
    "0xdead" [] rfl⟩

/-- C5: for a valid data payload shorter than the V3 variant's 160-byte
minimum, the structured decoder returns null (not an exception); and for any
valid data payload of any byte length (zero included) the best-effort decoder
returns a custom record with `min(len(data) // 32, 8)` raw words and the two
indexed-topic addresses exactly when the topics are present. -/
theorem v3_short_null_custom_total (l : LogEntry) (ds : String) (bs : List Nat)
    (hd : l.data = some ds) (hb : hex_to_bytes ds = .ok bs) :
    (bs.length < 160 → decode_v3_swap l = none) ∧
    (∃ f, decode_custom_swap l = some (.custom f) ∧
      f.words.length = min (bs.length / 32) 8 ∧
      (f.topic1_addr.isSome ↔ 2 ≤ (l.topics.getD []).length) ∧
      (f.topic2_addr.isSome ↔ 3 ≤ (l.topics.getD []).length)) := by
  constructor
  · intro hlen
    unfold decode_v3_swap decode_v3_body dictGet
    rw [hd]
    simp only [bind, Except.bind, hb]
    simp [hlen, pure, Except.pure]
  · unfold decode_custom_swap decode_custom_body dictGet
    rw [hd]
    simp only [bind, Except.bind, hb, pure, Except.pure]
    refine ⟨_, rfl, ?_, ?_, ?_⟩
    · simp
    · split_ifs <;> simp_all
    · split_ifs <;> simp_all

theorem v3_short_null_custom_total_witness :
    (LogEntry.data { data := some "0x00ff" } = some "0x00ff") ∧
    hex_to_bytes "0x00ff" = .ok [0, 255] ∧
    ((([0, 255] : List Nat).length < 160 →
        decode_v3_swap { data := some "0x00ff" } = none) ∧
      ∃ f, decode_custom_swap { data := some "0x00ff" } = some (.custom f) ∧
        f.words.length = min (([0, 255] : List Nat).length / 32) 8 ∧
        (f.topic1_addr.isSome ↔
          2 ≤ ((LogEntry.topics { data := some "0x00ff" }).getD []).length) ∧
        (f.topic2_addr.isSome ↔
          3 ≤ ((LogEntry.topics { data := some "0x00ff" }).getD []).length)) :=
  ⟨rfl, rfl, v3_short_null_custom_total { data := some "0x00ff" } "0x00ff"
    [0, 255] rfl rfl⟩

/-- Invariants of the retry loop over the remaining attempt indices
`range'(a, n)` with `a + n = retries`: every sent attempt carries the one
serialized id; at most `n` further attempts; at least one when `n ≥ 1`; the
sleeps are exactly `base^k` for `k = a+1, ...`; and when every attempt fails
the loop performs them all and re-raises the last failure. -/
theorem rpcLoop_spec (id : Nat) (oracle : Nat → AttemptResult) (retries : Nat) :
    ∀ n a, a + n = retries →
      (∀ i ∈ (rpcLoop id oracle retries (List.range' a n)).ids, i = id) ∧
      (rpcLoop id oracle retries (List.range' a n)).ids.length ≤ n ∧
      (1 ≤ n → 1 ≤ (rpcLoop id oracle retries (List.range' a n)).ids.length) ∧
      (rpcLoop id oracle retries (List.range' a n)).waits =
        (List.range' (a + 1)
          ((rpcLoop id oracle retries (List.range' a n)).ids.length - 1)).map
          backoffWait ∧
      ((∀ b, b < retries → attemptFails (oracle b) = true) → 1 ≤ n →
        (rpcLoop id oracle retries (List.range' a n)).outcome =
          .raised (attemptMsg (oracle (retries - 1))) ∧
        (rpcLoop id oracle retries (List.range' a n)).ids.length = n) := by
  intro n
  induction n with
  | zero =>
    intro a _
    simp [List.range', rpcLoop]
  | succ n ih =>
    intro a ha
    rw [List.range'_succ]
    unfold rpcLoop
    cases hf : attemptFails (oracle a) with
    | false =>
      simp only [hf, if_false, Bool.false_eq_true]
      refine ⟨by simp, by simp, by simp, by simp, ?_⟩
      intro hall _
      exact absurd (hall a (by omega)) (by simp [hf])
    | true =>
      simp only [hf, if_true]
      by_cases hlast : a < retries - 1
      · simp only [hlast, if_true]
        obtain ⟨ih1, ih2, ih3, ih4, ih5⟩ := ih (a + 1) (by omega)
        have hn1 : 1 ≤ n := by omega
        have hlen1 := ih3 hn1
        refine ⟨?_, ?_, ?_, ?_, ?_⟩
        · intro i hi
          rcases List.mem_cons.mp hi with h | h
          · exact h
          · exact ih1 i h
        · simp only [List.length_cons]; omega
        · simp
        · simp only [List.length_cons]
          obtain ⟨m, hm⟩ := Nat.exists_eq_add_of_le hlen1
          rw [ih4]
          rw [show (rpcLoop id oracle retries (List.range' (a + 1) n)).ids.length
              = m + 1 by omega]
          simp [List.range'_succ]
        · intro hall _
          obtain ⟨h5a, h5b⟩ := ih5 hall hn1
          refine ⟨h5a, ?_⟩
          simp only [List.length_cons]; omega
      · simp only [hlast, if_false]
        have hn0 : n = 0 := by omega
        refine ⟨by simp, by simp, by simp, by simp, ?_⟩
        intro _ _
        have : retries - 1 = a := by omega
        rw [this]
        simp [hn0]

/-- The retry loop's behaviour depends on an attempt only through whether it
failed, its exception message, and its returned value: a response body
carrying a protocol-level error field is handled exactly like a transport
failure with the same message. -/
theorem rpcLoop_congr (id : Nat) (o1 o2 : Nat → AttemptResult) (retries : Nat)
    (h : ∀ b, attemptFails (o1 b) = attemptFails (o2 b) ∧
      attemptMsg (o1 b) = attemptMsg (o2 b) ∧
      attemptValue (o1 b) = attemptValue (o2 b)) :
    ∀ l, rpcLoop id o1 retries l = rpcLoop id o2 retries l := by
  intro l
  induction l with
  | nil => rfl
  | cons a rest ih =>
    simp only [rpcLoop, ih, (h a).1, (h a).2.1, (h a).2.2]

/-- C4: one `rpc_call` performs at most `retries` attempts; after failed
attempt `k` (1-based, `k < retries`) it sleeps exactly `base^k` seconds
(base `3/2 = 1.5`) before attempt `k+1` — the sleep list is
`[base^1, ..., base^(m-1)]` for `m` attempts performed; when every attempt
fails it performs exactly `retries` attempts, re-raises the last failure and
sleeps no further; and a body with a protocol-level error field is treated
identically to a transport failure carrying the same message. -/
theorem rpc_retry_policy (id0 retries : Nat) (oracle o2 : Nat → AttemptResult) :
    (rpc_call id0 retries oracle).2.ids.length ≤ retries ∧
    (rpc_call id0 retries oracle).2.waits =
      (List.range' 1 ((rpc_call id0 retries oracle).2.ids.length - 1)).map
        backoffWait ∧
    ((∀ b, b < retries → attemptFails (oracle b) = true) → 1 ≤ retries →
      (rpc_call id0 retries oracle).2.outcome =
        .raised (attemptMsg (oracle (retries - 1))) ∧
      (rpc_call id0 retries oracle).2.ids.length = retries) ∧
    ((∀ b, attemptFails (oracle b) = attemptFails (o2 b) ∧
        attemptMsg (oracle b) = attemptMsg (o2 b) ∧
        attemptValue (oracle b) = attemptValue (o2 b)) →
      rpc_call id0 retries oracle = rpc_call id0 retries o2) := by
  have hs := rpcLoop_spec (id0 + 1) oracle retries retries 0 (by omega)
  unfold rpc_call
  rw [List.range_eq_range']
  refine ⟨hs.2.1, ?_, ?_, ?_⟩
  · have := hs.2.2.2.1
    simpa using this
  · intro hall hr
    exact hs.2.2.2.2 hall hr
  · intro hco
    rw [rpcLoop_congr (id0 + 1) oracle o2 retries hco]

/-- All-failing attempt oracle (witness scaffolding). -/
def failOracle : Nat → AttemptResult := fun _ => .exc "boom"

theorem rpc_retry_policy_witness :
    ((∀ b, b < 5 → attemptFails (failOracle b) = true) ∧ (1 : Nat) ≤ 5) ∧
    ((rpc_call 0 5 failOracle).2.outcome = .raised (attemptMsg (failOracle 4)) ∧
      (rpc_call 0 5 failOracle).2.ids.length = 5) :=
  ⟨⟨fun _ _ => rfl, by omega⟩,
    (rpc_retry_policy 0 5 failOracle failOracle).2.2.1
      (fun _ _ => rfl) (by omega)⟩

/-- Attempt oracle whose first attempt fails and second succeeds (used to
exhibit the shared request id across retry attempts). -/
def retryOnceOracle : Nat → AttemptResult :=
  fun a => if a = 0 then .exc "boom" else .body none (some "ok")

/-- C3 counterexample: a call whose first attempt fails re-sends the SAME
serialized envelope, so its two attempts carry the same request id `1` — the
per-attempt ids are not unique. -/
theorem rpc_ids_shared_within_call :
    (rpc_call 0 5 retryOnceOracle).2.ids = [1, 1] ∧
    ¬ ((rpc_call 0 5 retryOnceOracle).2.ids).Nodup := by
  refine ⟨rfl, ?_⟩
  rw [show (rpc_call 0 5 retryOnceOracle).2.ids = [1, 1] from rfl]
  decide

/-- `runCalls` helper: the per-call serialized ids are consecutive. -/
theorem runCalls_fst (retries : Nat) :
    ∀ (os : List (Nat → AttemptResult)) (id0 : Nat),
      (runCalls id0 retries os).2.map Prod.fst =
        List.range' (id0 + 1) os.length := by
  intro os
  induction os with
  | nil => intro id0; simp [runCalls]
  | cons o os ih =>
    intro id0
    simp only [runCalls, rpc_call, List.map_cons, List.length_cons]
    rw [ih (id0 + 1), List.range'_succ]

/-- C3 amended: the request-id counter is bumped once per CALL, not per
attempt: within one call every retry attempt re-sends the same envelope with
that call's id, and the per-call ids are unique and strictly increasing in
call order (`id0+1, id0+2, ...`). -/
theorem rpc_ids_unique_per_call (id0 retries : Nat)
    (os : List (Nat → AttemptResult)) :
    ((runCalls id0 retries os).2.map Prod.fst =
      List.range' (id0 + 1) os.length) ∧
    (∀ c ∈ (runCalls id0 retries os).2, ∀ i ∈ c.2.ids, i = c.1) ∧
    ((runCalls id0 retries os).2.map Prod.fst).Nodup ∧
    ((runCalls id0 retries os).2.map Prod.fst).Pairwise (· < ·) := by
  refine ⟨runCalls_fst retries os id0, ?_, ?_, ?_⟩
  · induction os generalizing id0 with
    | nil => intro c hc; simp [runCalls] at hc
    | cons o os ih =>
      intro c hc
      simp only [runCalls, rpc_call] at hc
      rcases List.mem_cons.mp hc with h | h
      · subst h
        intro i hi
        have := (rpcLoop_spec (id0 + 1) o retries retries 0 (by omega)).1
        rw [List.range_eq_range'] at hi
        exact this i hi
      · exact ih (id0 + 1) c h
  · rw [runCalls_fst retries os id0]
    exact List.nodup_range' _ _
  · rw [runCalls_fst retries os id0]
    exact List.pairwise_lt_range' _ _

theorem rpc_ids_unique_per_call_witness :
    ((runCalls 0 5 [failOracle, retryOnceOracle]).2.map Prod.fst =
      List.range' 1 2) ∧
    (∀ c ∈ (runCalls 0 5 [failOracle, retryOnceOracle]).2,
      ∀ i ∈ c.2.ids, i = c.1) ∧
    ((runCalls 0 5 [failOracle, retryOnceOracle]).2.map Prod.fst).Nodup ∧
    ((runCalls 0 5 [failOracle, retryOnceOracle]).2.map
      Prod.fst).Pairwise (· < ·) :=
  rpc_ids_unique_per_call 0 5 [failOracle, retryOnceOracle]

/-- The keep-predicate the same-block-after loop implements: transaction hash
differs from the origin's AND transaction index parses and is strictly
greater than the origin's. -/
def sbaKeep (th : String) (ti : Nat) (sl : LogEntry) : Bool :=
  !(pyLower (sl.transactionHash.getD "") == th) &&
  (match parseTxIndexField sl.transactionIndex with
   | .ok n => decide (ti < n)
   | .error _ => false)

/-- The record the same-block-after loop emits for a kept log. -/
def sbaRec (th : String) (bn : Nat) (bt pool : String) (sl : LogEntry)
    (n : Nat) (li : Option Nat) (t0 : String) (d : Option Decoded) : SBRec :=
  { origin_tx_hash := th, origin_block_number := bn, pool := pool
    observed_block_number := bn, observed_block_time := bt
    swap_tx_hash := pyLower (sl.transactionHash.getD "")
    swap_tx_index := n, swap_log_index := li, swap_topic0 := pyLower t0
    decoded := d, raw_log := raw_log sl }

/-- Case analysis for one iteration of the same-block-after loop. -/
theorem sba_cons_inv (th : String) (ti bn : Nat) (bt pool : String)
    (sl : LogEntry) (rest : List LogEntry) (recs : List SBRec)
    (h : sameBlockAfterLoop th ti bn bt pool (sl :: rest) = .ok recs) :
    (pyLower (sl.transactionHash.getD "") = th ∧
      sameBlockAfterLoop th ti bn bt pool rest = .ok recs) ∨
    (∃ n, pyLower (sl.transactionHash.getD "") ≠ th ∧
      parseTxIndexField sl.transactionIndex = .ok n ∧ n ≤ ti ∧
      sameBlockAfterLoop th ti bn bt pool rest = .ok recs) ∨
    (∃ n d li ts t0 rest',
      pyLower (sl.transactionHash.getD "") ≠ th ∧
      parseTxIndexField sl.transactionIndex = .ok n ∧ ti < n ∧
      decode_swap sl = .ok d ∧ parseLogIndexField sl.logIndex = .ok li ∧
      sl.topics = some ts ∧ ts[0]? = some t0 ∧
      sameBlockAfterLoop th ti bn bt pool rest = .ok rest' ∧
      recs = sbaRec th bn bt pool sl n li t0 d :: rest') := by
  rw [sameBlockAfterLoop] at h
  by_cases h1 : pyLower (sl.transactionHash.getD "") = th
  · rw [if_pos h1] at h
    exact Or.inl ⟨h1, h⟩
  · rw [if_neg h1] at h
    cases hidx : parseTxIndexField sl.transactionIndex with
    | error e =>
      simp only [bind, Except.bind, hidx] at h
      exact Except.noConfusion h
    | ok n =>
      simp only [bind, Except.bind, hidx] at h
      by_cases hle : n ≤ ti
      · rw [if_pos hle] at h
        exact Or.inr (Or.inl ⟨n, h1, rfl, hle, h⟩)
      · rw [if_neg hle] at h
        cases hdec : decode_swap sl with
        | error e =>
          simp only [hdec] at h
          exact Except.noConfusion h
        | ok d =>
          simp only [hdec] at h
          cases hli : parseLogIndexField sl.logIndex with
          | error e =>
            simp only [hli] at h
            exact Except.noConfusion h
          | ok li =>
            simp only [hli] at h
            cases ht : sl.topics with
            | none =>
              simp only [dictGet, ht] at h
              exact Except.noConfusion h
            | some ts =>
              simp only [dictGet, ht] at h
              cases ht0 : ts[0]? with
              | none =>
                simp only [listGet, ht0] at h
                exact Except.noConfusion h
              | some t0 =>
                simp only [listGet, ht0] at h
                cases hrest : sameBlockAfterLoop th ti bn bt pool rest with
                | error e =>
                  simp only [hrest] at h
                  exact Except.noConfusion h
                | ok rest' =>
                  simp only [hrest, pure, Except.pure, Except.ok.injEq] at h
                  refine Or.inr (Or.inr ⟨n, d, li, ts, t0, rest', h1, rfl,
                    by omega, rfl, rfl, rfl, ht0, rfl, ?_⟩)
                  rw [← h]
                  rfl

/-- Soundness of the same-block-after loop: every emitted record's swap
transaction differs from the origin's and has a strictly greater index. -/
theorem sba_sound (th : String) (ti bn : Nat) (bt pool : String) :
    ∀ ls recs, sameBlockAfterLoop th ti bn bt pool ls = .ok recs →
      ∀ r ∈ recs, r.swap_tx_hash ≠ th ∧ ti < r.swap_tx_index := by
  intro ls
  induction ls with
  | nil =>
    intro recs h r hr
    rw [sameBlockAfterLoop] at h
    cases h
    simp at hr
  | cons sl rest ih =>
    intro recs h r hr
    rcases sba_cons_inv th ti bn bt pool sl rest recs h with
      ⟨_, h2⟩ | ⟨n, _, _, _, h2⟩ |
      ⟨n, d, li, ts, t0, rest', h1, _, hgt, _, _, _, _, h2, hrec⟩
    · exact ih recs h2 r hr
    · exact ih recs h2 r hr
    · subst hrec
      rcases List.mem_cons.mp hr with heq | hmem
      · subst heq
        exact ⟨h1, hgt⟩
      · exact ih rest' h2 r hmem

/-- Completeness of the same-block-after loop: every queried log with a
different transaction hash and a strictly greater transaction index is
decoded and emitted. -/
theorem sba_complete (th : String) (ti bn : Nat) (bt pool : String) :
    ∀ ls recs, sameBlockAfterLoop th ti bn bt pool ls = .ok recs →
      ∀ sl ∈ ls, ∀ n, pyLower (sl.transactionHash.getD "") ≠ th →
        parseTxIndexField sl.transactionIndex = .ok n → ti < n →
        ∃ r ∈ recs, r.raw_log = raw_log sl ∧ r.swap_tx_index = n ∧
          r.swap_tx_hash = pyLower (sl.transactionHash.getD "") := by
  intro ls
  induction ls with
  | nil =>
    intro recs _ sl hsl
    simp at hsl
  | cons sl0 rest ih =>
    intro recs h sl hsl n hne hidx hgt
    rcases sba_cons_inv th ti bn bt pool sl0 rest recs h with
      ⟨hh, h2⟩ | ⟨m, _, hidx', hle, h2⟩ |
      ⟨m, d, li, ts, t0, rest', _, hidx', _, _, _, _, _, h2, hrec⟩
    · rcases List.mem_cons.mp hsl with heq | hmem
      · subst heq; exact absurd hh hne
      · exact ih recs h2 sl hmem n hne hidx hgt
    · rcases List.mem_cons.mp hsl with heq | hmem
      · subst heq
        rw [hidx] at hidx'
        injection hidx' with hmn
        omega
      · exact ih recs h2 sl hmem n hne hidx hgt
    · subst hrec
      rcases List.mem_cons.mp hsl with heq | hmem
      · subst heq
        rw [hidx] at hidx'
        injection hidx' with hmn
        subst hmn
        exact ⟨sbaRec th bn bt pool sl n li t0 d, List.mem_cons_self _ _,
          rfl, rfl, rfl⟩
      · obtain ⟨r, hr, hrest⟩ := ih rest' h2 sl hmem n hne hidx hgt
        exact ⟨r, List.mem_cons_of_mem _ hr, hrest⟩

/-- Counting: the same-block-after loop emits one record per kept log. -/
theorem sba_count (th : String) (ti bn : Nat) (bt pool : String) :
    ∀ ls recs, sameBlockAfterLoop th ti bn bt pool ls = .ok recs →
      recs.length = ls.countP (sbaKeep th ti) := by
  intro ls
  induction ls with
  | nil =>
    intro recs h
    rw [sameBlockAfterLoop] at h
    cases h
    simp
  | cons sl rest ih =>
    intro recs h
    rcases sba_cons_inv th ti bn bt pool sl rest recs h with
      ⟨hh, h2⟩ | ⟨n, _, hidx, hle, h2⟩ |
      ⟨n, d, li, ts, t0, rest', h1, hidx, hgt, _, _, _, _, h2, hrec⟩
    · rw [List.countP_cons, ih recs h2]
      have : sbaKeep th ti sl = false := by
        simp [sbaKeep, hh]
      simp [this]
    · rw [List.countP_cons, ih recs h2]
      have : sbaKeep th ti sl = false := by
        simp only [sbaKeep, hidx]
        simp [decide_eq_false (by omega : ¬ ti < n)]
      simp [this]
    · subst hrec
      simp only [List.length_cons, List.countP_cons]
      rw [ih rest' h2]
      have : sbaKeep th ti sl = true := by
        simp only [sbaKeep, hidx]
        simp [h1, decide_eq_true_eq, hgt]
      simp [this]

/-- The keep-predicate of the alternate flow's same-block loop. -/
def fsbKeep (th : String) (ti : Nat) (fl : LogEntry) : Bool :=
  !(addr_lower (fl.transactionHash.getD "") == pyLower th) &&
  (match parseTxIndexField fl.transactionIndex with
   | .ok n => decide (ti < n)
   | .error _ => false)

/-- The follow-up record the alternate flow's same-block loop emits. -/
def fsbRec (rpc : SwapRpc) (fl : LogEntry) (bn li : Nat) : FollowupSwap :=
  { tx_hash := pyLower (fl.transactionHash.getD "")
    block_number := bn, block_offset := 0, log_index := li
    swapper := get_tx_from rpc fl.transactionHash
    raw_topics := fl.topics.getD [], raw_data := fl.data.getD "0x" }

/-- Case analysis for one iteration of the alternate same-block loop. -/
theorem fsb_cons_inv (rpc : SwapRpc) (th : String) (ti : Nat)
    (fl : LogEntry) (rest : List LogEntry) (recs : List FollowupSwap)
    (h : followupSameBlockLoop rpc th ti (fl :: rest) = .ok recs) :
    (addr_lower (fl.transactionHash.getD "") = pyLower th ∧
      followupSameBlockLoop rpc th ti rest = .ok recs) ∨
    (∃ n, addr_lower (fl.transactionHash.getD "") ≠ pyLower th ∧
      parseTxIndexField fl.transactionIndex = .ok n ∧ n ≤ ti ∧
      followupSameBlockLoop rpc th ti rest = .ok recs) ∨
    (∃ n bn li rest',
      addr_lower (fl.transactionHash.getD "") ≠ pyLower th ∧
      parseTxIndexField fl.transactionIndex = .ok n ∧ ti < n ∧
      parse_block_number fl.blockNumber = .ok bn ∧
      parse_log_index fl.logIndex = .ok li ∧
      followupSameBlockLoop rpc th ti rest = .ok rest' ∧
      recs = fsbRec rpc fl bn li :: rest') := by
  rw [followupSameBlockLoop] at h
  by_cases h1 : addr_lower (fl.transactionHash.getD "") = pyLower th
  · rw [if_pos h1] at h
    exact Or.inl ⟨h1, h⟩
  · rw [if_neg h1] at h
    cases hidx : parseTxIndexField fl.transactionIndex with
    | error e =>
      simp only [bind, Except.bind, hidx] at h
      exact Except.noConfusion h
    | ok n =>
      simp only [bind, Except.bind, hidx] at h
      by_cases hle : n ≤ ti
      · rw [if_pos hle] at h
        exact Or.inr (Or.inl ⟨n, h1, rfl, hle, h⟩)
      · rw [if_neg hle] at h
        cases hbn : parse_block_number fl.blockNumber with
        | error e =>
          simp only [hbn] at h
          exact Except.noConfusion h
        | ok bn =>
          simp only [hbn] at h
          cases hli : parse_log_index fl.logIndex with
          | error e =>
            simp only [hli] at h
            exact Except.noConfusion h
          | ok li =>
            simp only [hli] at h
            cases hrest : followupSameBlockLoop rpc th ti rest with
            | error e =>
              simp only [hrest] at h
              exact Except.noConfusion h
            | ok rest' =>
              simp only [hrest, pure, Except.pure, Except.ok.injEq] at h
              refine Or.inr (Or.inr ⟨n, bn, li, rest', h1, rfl, by omega,
                rfl, rfl, rfl, ?_⟩)
              rw [← h]
              rfl

/-- Soundness of the alternate same-block loop: every emitted follow-up comes
from a queried log whose transaction hash differs from the origin's and whose
index is strictly greater. -/
theorem fsb_sound (rpc : SwapRpc) (th : String) (ti : Nat) :
    ∀ ls recs, followupSameBlockLoop rpc th ti ls = .ok recs →
      ∀ r ∈ recs, ∃ fl ∈ ls,
        addr_lower (fl.transactionHash.getD "") ≠ pyLower th ∧
        (∃ n, parseTxIndexField fl.transactionIndex = .ok n ∧ ti < n) ∧
        r.tx_hash = pyLower (fl.transactionHash.getD "") := by
  intro ls
  induction ls with
  | nil =>
    intro recs h r hr
    rw [followupSameBlockLoop] at h
    cases h
    simp at hr
  | cons fl0 rest ih =>
    intro recs h r hr
    rcases fsb_cons_inv rpc th ti fl0 rest recs h with
      ⟨_, h2⟩ | ⟨n, _, _, _, h2⟩ |
      ⟨n, bn, li, rest', h1, hidx, hgt, _, _, h2, hrec⟩
    · obtain ⟨fl, hfl, hp⟩ := ih recs h2 r hr
      exact ⟨fl, List.mem_cons_of_mem _ hfl, hp⟩
    · obtain ⟨fl, hfl, hp⟩ := ih recs h2 r hr
      exact ⟨fl, List.mem_cons_of_mem _ hfl, hp⟩
    · subst hrec
      rcases List.mem_cons.mp hr with heq | hmem
      · subst heq
        exact ⟨fl0, List.mem_cons_self _ _, h1, ⟨n, hidx, hgt⟩, rfl⟩
      · obtain ⟨fl, hfl, hp⟩ := ih rest' h2 r hmem
        exact ⟨fl, List.mem_cons_of_mem _ hfl, hp⟩

/-- Completeness of the alternate same-block loop. -/
theorem fsb_complete (rpc : SwapRpc) (th : String) (ti : Nat) :
    ∀ ls recs, followupSameBlockLoop rpc th ti ls = .ok recs →
      ∀ fl ∈ ls, ∀ n, addr_lower (fl.transactionHash.getD "") ≠ pyLower th →
        parseTxIndexField fl.transactionIndex = .ok n → ti < n →
        ∃ r ∈ recs, r.tx_hash = pyLower (fl.transactionHash.getD "") ∧
          r.raw_topics = fl.topics.getD [] ∧ r.raw_data = fl.data.getD "0x" := by
  intro ls
  induction ls with
  | nil =>
    intro recs _ fl hfl
    simp at hfl
  | cons fl0 rest ih =>
    intro recs h fl hfl n hne hidx hgt
    rcases fsb_cons_inv rpc th ti fl0 rest recs h with
      ⟨hh, h2⟩ | ⟨m, _, hidx', hle, h2⟩ |
      ⟨m, bn, li, rest', _, hidx', _, _, _, h2, hrec⟩
    · rcases List.mem_cons.mp hfl with heq | hmem
      · subst heq; exact absurd hh hne
      · exact ih recs h2 fl hmem n hne hidx hgt
    · rcases List.mem_cons.mp hfl with heq | hmem
      · subst heq
        rw [hidx] at hidx'
        injection hidx' with hmn
        omega
      · exact ih recs h2 fl hmem n hne hidx hgt
    · subst hrec
      rcases List.mem_cons.mp hfl with heq | hmem
      · subst heq
        exact ⟨fsbRec rpc fl bn li, List.mem_cons_self _ _, rfl, rfl, rfl⟩
      · obtain ⟨r, hr, hp⟩ := ih rest' h2 fl hmem n hne hidx hgt
        exact ⟨r, List.mem_cons_of_mem _ hr, hp⟩

/-- Counting for the alternate same-block loop. -/
theorem fsb_count (rpc : SwapRpc) (th : String) (ti : Nat) :
    ∀ ls recs, followupSameBlockLoop rpc th ti ls = .ok recs →
      recs.length = ls.countP (fsbKeep th ti) := by
  intro ls
  induction ls with
  | nil =>
    intro recs h
    rw [followupSameBlockLoop] at h
    cases h
    simp
  | cons fl rest ih =>
    intro recs h
    rcases fsb_cons_inv rpc th ti fl rest recs h with
      ⟨hh, h2⟩ | ⟨n, _, hidx, hle, h2⟩ |
      ⟨n, bn, li, rest', h1, hidx, hgt, _, _, h2, hrec⟩
    · rw [List.countP_cons, ih recs h2]
      have : fsbKeep th ti fl = false := by
        simp [fsbKeep, hh]
      simp [this]
    · rw [List.countP_cons, ih recs h2]
      have : fsbKeep th ti fl = false := by
        simp only [fsbKeep, hidx]
        simp [decide_eq_false (by omega : ¬ ti < n)]
      simp [this]
    · subst hrec
      simp only [List.length_cons, List.countP_cons]
      rw [ih rest' h2]
      have : fsbKeep th ti fl = true := by
        simp only [fsbKeep, hidx]
        simp [h1, decide_eq_true_eq, hgt]
      simp [this]

/-- The strictly-greater-transaction-index predicate on a queried log. -/
def idxGt (ti : Nat) (sl : LogEntry) : Bool :=
  match parseTxIndexField sl.transactionIndex with
  | .ok n => decide (ti < n)
  | .error _ => false

/-- Conclusion of C1, shared with its witness: in both flows the emitted
same-block-after set excludes the origin transaction and every index
`≤` the origin's, and contains exactly the strictly-greater-index logs. -/
def C1Concl (th : String) (ti : Nat) (ls : List LogEntry) (recs : List SBRec)
    (th2 : String) (ti2 : Nat) (fls : List LogEntry)
    (frecs : List FollowupSwap) : Prop :=
  ((∀ r ∈ recs, r.swap_tx_hash ≠ th ∧ ti < r.swap_tx_index) ∧
    (∀ sl ∈ ls, ∀ n, parseTxIndexField sl.transactionIndex = .ok n → ti < n →
      ∃ r ∈ recs, r.raw_log = raw_log sl ∧ r.swap_tx_index = n) ∧
    recs.length = ls.countP (idxGt ti)) ∧
  ((∀ r ∈ frecs, ∃ fl ∈ fls,
      addr_lower (fl.transactionHash.getD "") ≠ pyLower th2 ∧
      (∃ n, parseTxIndexField fl.transactionIndex = .ok n ∧ ti2 < n) ∧
      r.tx_hash = pyLower (fl.transactionHash.getD "")) ∧
    (∀ fl ∈ fls, ∀ n, parseTxIndexField fl.transactionIndex = .ok n → ti2 < n →
      ∃ r ∈ frecs, r.tx_hash = pyLower (fl.transactionHash.getD "") ∧
        r.raw_topics = fl.topics.getD [] ∧ r.raw_data = fl.data.getD "0x") ∧
    frecs.length = fls.countP (idxGt ti2))

/-- C1: in the same-block-after window (primary flow and alternate flow), the
emitted set never contains a log whose transaction hash equals the origin's
or whose transaction index is `≤` the origin's; given that the origin's own
logs carry the origin's index, exactly the logs with strictly greater
transaction indices are decoded and emitted (membership and count). -/
theorem same_block_after_exactly_greater (th : String) (ti bn : Nat)
    (bt pool : String) (ls : List LogEntry) (recs : List SBRec)
    (hrun : sameBlockAfterRecords th ti bn bt pool (some ls) = .ok recs)
    (hwf : ∀ sl ∈ ls, pyLower (sl.transactionHash.getD "") = th →
      ∃ m, parseTxIndexField sl.transactionIndex = .ok m ∧ m ≤ ti)
    (rpc : SwapRpc) (th2 : String) (ti2 : Nat) (fls : List LogEntry)
    (frecs : List FollowupSwap)
    (hfrun : followupSameBlock rpc th2 ti2 (some fls) = .ok frecs)
    (hfwf : ∀ fl ∈ fls, addr_lower (fl.transactionHash.getD "") = pyLower th2 →
      ∃ m, parseTxIndexField fl.transactionIndex = .ok m ∧ m ≤ ti2) :
    C1Concl th ti ls recs th2 ti2 fls frecs := by
  rw [sameBlockAfterRecords] at hrun
  rw [followupSameBlock] at hfrun
  refine ⟨⟨sba_sound th ti bn bt pool ls recs hrun, ?_, ?_⟩,
    fsb_sound rpc th2 ti2 fls frecs hfrun, ?_, ?_⟩
  · intro sl hsl n hidx hgt
    by_cases hh : pyLower (sl.transactionHash.getD "") = th
    · obtain ⟨m, hm, hle⟩ := hwf sl hsl hh
      rw [hidx] at hm
      injection hm with hmn
      omega
    · obtain ⟨r, hr, h1, h2, _⟩ :=
        sba_complete th ti bn bt pool ls recs hrun sl hsl n hh hidx hgt
      exact ⟨r, hr, h1, h2⟩
  · rw [sba_count th ti bn bt pool ls recs hrun]
    refine List.countP_congr ?_
    intro sl hsl
    unfold sbaKeep idxGt
    by_cases hh : pyLower (sl.transactionHash.getD "") = th
    · obtain ⟨m, hm, hle⟩ := hwf sl hsl hh
      simp [hh, hm, decide_eq_false (by omega : ¬ ti < m)]
    · simp [hh]
  · intro fl hfl n hidx hgt
    by_cases hh : addr_lower (fl.transactionHash.getD "") = pyLower th2
    · obtain ⟨m, hm, hle⟩ := hfwf fl hfl hh
      rw [hidx] at hm
      injection hm with hmn
      omega
    · exact fsb_complete rpc th2 ti2 fls frecs hfrun fl hfl n hh hidx hgt
  · rw [fsb_count rpc th2 ti2 fls frecs hfrun]
    refine List.countP_congr ?_
    intro fl hfl
    unfold fsbKeep idxGt
    by_cases hh : addr_lower (fl.transactionHash.getD "") = pyLower th2
    · obtain ⟨m, hm, hle⟩ := hfwf fl hfl hh
      simp [hh, hm, decide_eq_false (by omega : ¬ ti2 < m)]
    · simp [hh]

/-- The origin transaction's own log in the C1 witness block. -/
def c1Origin : LogEntry :=
  { transactionHash := some "0xaa", transactionIndex := some (.num 0) }

/-- A later transaction's log in the C1 witness block. -/
def c1After : LogEntry :=
  { topics := some ["0xzz"], logIndex := some (.num 5)
    transactionHash := some "0xbb", transactionIndex := some (.num 1) }

def c1Logs : List LogEntry := [c1Origin, c1After]

/-- A swap-flow endpoint oracle that answers null to everything. -/
def nullSwapRpc : SwapRpc :=
  { getReceipt := fun _ => none, getTx := fun _ => none, getLogs := fun _ => none }

theorem same_block_after_exactly_greater_witness :
    (sameBlockAfterRecords "0xaa" 0 7 "" "0xp" (some c1Logs) =
      .ok [sbaRec "0xaa" 7 "" "0xp" c1After 1 (some 5) "0xzz" none]) ∧
    (∀ sl ∈ c1Logs, pyLower (sl.transactionHash.getD "") = "0xaa" →
      ∃ m, parseTxIndexField sl.transactionIndex = .ok m ∧ m ≤ 0) ∧
    (followupSameBlock nullSwapRpc "0xaa" 0 (some c1Logs) =
      .ok [fsbRec nullSwapRpc c1After 0 5]) ∧
    (∀ fl ∈ c1Logs, addr_lower (fl.transactionHash.getD "") = pyLower "0xaa" →
      ∃ m, parseTxIndexField fl.transactionIndex = .ok m ∧ m ≤ 0) ∧
    C1Concl "0xaa" 0 c1Logs [sbaRec "0xaa" 7 "" "0xp" c1After 1 (some 5) "0xzz" none]
      "0xaa" 0 c1Logs [fsbRec nullSwapRpc c1After 0 5] := by
  have h1 : sameBlockAfterRecords "0xaa" 0 7 "" "0xp" (some c1Logs) =
      .ok [sbaRec "0xaa" 7 "" "0xp" c1After 1 (some 5) "0xzz" none] := rfl
  have h2 : ∀ sl ∈ c1Logs, pyLower (sl.transactionHash.getD "") = "0xaa" →
      ∃ m, parseTxIndexField sl.transactionIndex = .ok m ∧ m ≤ 0 := by
    intro sl hsl hh
    rcases List.mem_cons.mp hsl with heq | hmem
    · subst heq; exact ⟨0, rfl, le_refl 0⟩
    · rcases List.mem_cons.mp hmem with heq | hmem2
      · subst heq
        exact absurd hh (by decide)
      · simp at hmem2
  have h3 : followupSameBlock nullSwapRpc "0xaa" 0 (some c1Logs) =
      .ok [fsbRec nullSwapRpc c1After 0 5] := rfl
  have h4 : ∀ fl ∈ c1Logs, addr_lower (fl.transactionHash.getD "") = pyLower "0xaa" →
      ∃ m, parseTxIndexField fl.transactionIndex = .ok m ∧ m ≤ 0 := by
    intro fl hfl hh
    rcases List.mem_cons.mp hfl with heq | hmem
    · subst heq; exact ⟨0, rfl, le_refl 0⟩
    · rcases List.mem_cons.mp hmem with heq | hmem2
      · subst heq
        exact absurd hh (by decide)
      · simp at hmem2
  exact ⟨h1, h2, h3, h4,
    same_block_after_exactly_greater "0xaa" 0 7 "" "0xp" c1Logs _ h1 h2
      nullSwapRpc "0xaa" 0 c1Logs _ h3 h4⟩

/-- Whether an `Except` computation succeeded. -/
def exceptOk : Except ε α → Bool
  | .ok _ => true
  | .error _ => false

/-- A cached-or-fetched block value that `resolveBlockTime` can format
without raising: null, or carrying a parseable hex timestamp. -/
def blockOk : Option Block → Bool
  | none => true
  | some b =>
    match b.timestamp with
    | some t => exceptOk (hex_to_int t)
    | none => false

/-- The block value `resolveBlockTime` will act on for a key: the cached
value when present, else what the endpoint returns. -/
def effectiveBlock (rpc : Rpc) (cache : BlockCache) (k : String) :
    Option Block :=
  match cacheLookup cache k with
  | some v => v
  | none => rpc.getBlock k

theorem cacheLookup_insert_self (c : BlockCache) (k : String) (v : Option Block) :
    cacheLookup (cacheInsert c k v) k = some v := by
  simp [cacheInsert, cacheLookup]

theorem cacheLookup_insert_other (c : BlockCache) (k' k : String)
    (v : Option Block) (h : k' ≠ k) :
    cacheLookup (cacheInsert c k' v) k = cacheLookup c k := by
  simp [cacheInsert, cacheLookup, h]

/-- When the effective block for a key is formattable, `resolveBlockTime`
succeeds and leaves every key's effective block unchanged (it only ever
caches the endpoint's own answer). -/
theorem resolveBlockTime_ok (key : String) (cache : BlockCache) (rpc : Rpc)
    (fmt : Nat → String) (h : blockOk (effectiveBlock rpc cache key) = true) :
    ∃ t c', resolveBlockTime key cache rpc fmt = .ok (t, c') ∧
      (∀ k, effectiveBlock rpc c' k = effectiveBlock rpc cache k) := by
  unfold resolveBlockTime
  by_cases hc : (cacheLookup cache key).isSome
  · rw [if_pos hc]
    obtain ⟨v, hv⟩ := Option.isSome_iff_exists.mp hc
    simp only [hv]
    unfold effectiveBlock at h
    rw [hv] at h
    cases v with
    | none => exact ⟨"", cache, rfl, fun _ => rfl⟩
    | some blk =>
      dsimp only at h ⊢
      simp only [blockOk] at h
      cases hts : blk.timestamp with
      | none => rw [hts] at h; simp at h
      | some t =>
        rw [hts] at h
        dsimp only at h
        cases hx : hex_to_int t with
        | error e => rw [hx] at h; simp [exceptOk] at h
        | ok ts =>
          refine ⟨fmt ts, cache, ?_, fun _ => rfl⟩
          simp [dictGet, hts, bind, Except.bind, hx, pure, Except.pure]
  · rw [if_neg hc]
    simp only [cacheLookup_insert_self]
    have hnone : cacheLookup cache key = none := by
      cases hlk : cacheLookup cache key with
      | none => rfl
      | some v => rw [hlk] at hc; simp at hc
    have h' : blockOk (rpc.getBlock key) = true := by
      unfold effectiveBlock at h
      rw [hnone] at h
      exact h
    have heff : ∀ k,
        effectiveBlock rpc (cacheInsert cache key (rpc.getBlock key)) k =
          effectiveBlock rpc cache k := by
      intro k
      by_cases hk : key = k
      · subst hk
        unfold effectiveBlock
        rw [cacheLookup_insert_self, hnone]
      · unfold effectiveBlock
        rw [cacheLookup_insert_other cache key k _ hk]
    cases hb : rpc.getBlock key with
    | none =>
      rw [hb] at heff
      exact ⟨"", _, rfl, heff⟩
    | some blk =>
      rw [hb] at heff
      rw [hb] at h'
      dsimp only at h' ⊢
      simp only [blockOk] at h'
      cases hts : blk.timestamp with
      | none => rw [hts] at h'; simp at h'
      | some t =>
        rw [hts] at h'
        dsimp only at h'
        cases hx : hex_to_int t with
        | error e => rw [hx] at h'; simp [exceptOk] at h'
        | ok ts =>
          refine ⟨fmt ts, _, ?_, heff⟩
          simp [dictGet, hts, bind, Except.bind, hx, pure, Except.pure]

/-- A queried log every field of which the next-blocks loop can process
without raising. -/
def nbLogOk (sl : LogEntry) : Bool :=
  exceptOk (decode_swap sl) && exceptOk (parseLogIndexField sl.logIndex) &&
  exceptOk (parseBlockNumberField sl.blockNumber)

/-- A successful `decode_swap` presupposes a present, nonempty topics list. -/
theorem decode_swap_ok_topics (sl : LogEntry) (d : Option Decoded)
    (h : decode_swap sl = .ok d) :
    ∃ ts t0, sl.topics = some ts ∧ ts[0]? = some t0 := by
  unfold decode_swap at h
  cases ht : sl.topics with
  | none =>
    simp only [dictGet, ht, bind, Except.bind] at h
    exact Except.noConfusion h
  | some ts =>
    simp only [dictGet, ht, bind, Except.bind, listGet] at h
    cases ht0 : ts[0]? with
    | none =>
      rw [ht0] at h
      exact Except.noConfusion h
    | some t0 => exact ⟨ts, t0, rfl, ht0⟩

theorem mkNBRec_ok (th : String) (bn : Nat) (pool t : String) (sl : LogEntry)
    (h : nbLogOk sl = true) : ∃ r, mkNBRec th bn pool t sl = .ok r := by
  unfold nbLogOk at h
  simp only [Bool.and_eq_true] at h
  obtain ⟨⟨hd, hli⟩, hbn⟩ := h
  cases hdec : decode_swap sl with
  | error e => rw [hdec] at hd; simp [exceptOk] at hd
  | ok d =>
    obtain ⟨ts, t0, hts, ht0⟩ := decode_swap_ok_topics sl d hdec
    cases hlix : parseLogIndexField sl.logIndex with
    | error e => rw [hlix] at hli; simp [exceptOk] at hli
    | ok li =>
      cases hbnx : parseBlockNumberField sl.blockNumber with
      | error e => rw [hbnx] at hbn; simp [exceptOk] at hbn
      | ok ob =>
        cases hm : mkNBRec th bn pool t sl with
        | ok r => exact ⟨r, rfl⟩
        | error e =>
          exfalso
          unfold mkNBRec at hm
          simp [bind, Except.bind, hdec, hlix, hbnx, dictGet, hts, listGet,
            ht0, pure, Except.pure] at hm

theorem nbLogsLoop_ok (th : String) (bn : Nat) (pool t : String) :
    ∀ ls : List LogEntry, (∀ sl ∈ ls, nbLogOk sl = true) →
      ∃ rs, nbLogsLoop th bn pool t ls = .ok rs := by
  intro ls
  induction ls with
  | nil => intro _; exact ⟨[], rfl⟩
  | cons sl rest ih =>
    intro hall
    obtain ⟨r, hr⟩ := mkNBRec_ok th bn pool t sl (hall sl (List.mem_cons_self _ _))
    obtain ⟨rs, hrs⟩ := ih (fun x hx => hall x (List.mem_cons_of_mem _ hx))
    refine ⟨r :: rs, ?_⟩
    rw [nbLogsLoop]
    simp [bind, Except.bind, hr, hrs, pure, Except.pure]

/-- The single-block query issued at one offset of the primary next-blocks
window. -/
def nbQuery (bn off : Nat) (pool : String) : GetLogsQuery :=
  { fromBlock := pyHex (bn + off), toBlock := pyHex (bn + off)
    address := pool, topics := swapTopicsFilter }

theorem nextBlockOffset_ok (th : String) (bn : Nat) (pool : String) (off : Nat)
    (cache : BlockCache) (rpc : Rpc) (fmt : Nat → String)
    (hc : blockOk (effectiveBlock rpc cache (pyHex (bn + off))) = true)
    (hl : ∀ sl ∈ (rpc.getLogs (nbQuery bn off pool)).getD [], nbLogOk sl = true) :
    ∃ recs c', nextBlockOffset th bn pool off cache rpc fmt =
        .ok (recs, nbQuery bn off pool, c') ∧
      ∀ k, effectiveBlock rpc c' k = effectiveBlock rpc cache k := by
  obtain ⟨t, c', hres, heff⟩ := resolveBlockTime_ok (pyHex (bn + off)) cache rpc fmt hc
  unfold nextBlockOffset
  simp only [bind, Except.bind, hres]
  have hq : ({ fromBlock := pyHex (bn + off), toBlock := pyHex (bn + off), address := pool, topics := swapTopicsFilter } : GetLogsQuery) = nbQuery bn off pool := rfl
  rw [hq]
  cases hlog : rpc.getLogs (nbQuery bn off pool) with
  | none => exact ⟨[], c', rfl, heff⟩
  | some ls =>
    rw [hlog] at hl
    obtain ⟨rs, hrs⟩ := nbLogsLoop_ok th bn pool t ls (by simpa using hl)
    exact ⟨rs, c', by simp [bind, Except.bind, hrs, pure, Except.pure], heff⟩

/-- Primary flow: whatever the per-block results (any number of matches, or
none), a successful next-blocks window issues exactly the three single-block
queries for blocks `B+1`, `B+2`, `B+3`. -/
theorem nextBlocksRun_queries (th : String) (bn : Nat) (pool : String)
    (cache : BlockCache) (rpc : Rpc) (fmt : Nat → String)
    (hc1 : blockOk (effectiveBlock rpc cache (pyHex (bn + 1))) = true)
    (hc2 : blockOk (effectiveBlock rpc cache (pyHex (bn + 2))) = true)
    (hc3 : blockOk (effectiveBlock rpc cache (pyHex (bn + 3))) = true)
    (hl : ∀ off ∈ [1, 2, 3], ∀ sl ∈ (rpc.getLogs (nbQuery bn off pool)).getD [],
      nbLogOk sl = true) :
    ∃ recs c', nextBlocksRun th bn pool cache rpc fmt =
      .ok (recs, [nbQuery bn 1 pool, nbQuery bn 2 pool, nbQuery bn 3 pool], c') := by
  obtain ⟨r1, c1, h1, he1⟩ :=
    nextBlockOffset_ok th bn pool 1 cache rpc fmt hc1 (hl 1 (by simp))
  have hc2' : blockOk (effectiveBlock rpc c1 (pyHex (bn + 2))) = true := by
    rw [he1]; exact hc2
  obtain ⟨r2, c2, h2, he2⟩ :=
    nextBlockOffset_ok th bn pool 2 c1 rpc fmt hc2' (hl 2 (by simp))
  have hc3' : blockOk (effectiveBlock rpc c2 (pyHex (bn + 3))) = true := by
    rw [he2, he1]; exact hc3
  obtain ⟨r3, c3, h3, _⟩ :=
    nextBlockOffset_ok th bn pool 3 c2 rpc fmt hc3' (hl 3 (by simp))
  refine ⟨r1 ++ r2 ++ r3, c3, ?_⟩
  unfold nextBlocksRun
  simp [bind, Except.bind, h1, h2, h3, pure, Except.pure]

/-- A queried log the alternate flow's next-blocks loop can process. -/
def fuLogOk (fl : LogEntry) : Bool :=
  exceptOk (parse_block_number fl.blockNumber) &&
  exceptOk (parse_log_index fl.logIndex)

theorem followupNextLoop_ok (rpc : SwapRpc) (off : Nat) :
    ∀ ls : List LogEntry, (∀ fl ∈ ls, fuLogOk fl = true) →
      ∃ rs, followupNextLoop rpc off ls = .ok rs := by
  intro ls
  induction ls with
  | nil => intro _; exact ⟨[], rfl⟩
  | cons fl rest ih =>
    intro hall
    have hfl := hall fl (List.mem_cons_self _ _)
    unfold fuLogOk at hfl
    simp only [Bool.and_eq_true] at hfl
    obtain ⟨hbn, hli⟩ := hfl
    cases hbnx : parse_block_number fl.blockNumber with
    | error e => rw [hbnx] at hbn; simp [exceptOk] at hbn
    | ok bn =>
      cases hlix : parse_log_index fl.logIndex with
      | error e => rw [hlix] at hli; simp [exceptOk] at hli
      | ok li =>
        obtain ⟨rs, hrs⟩ := ih (fun x hx => hall x (List.mem_cons_of_mem _ hx))
        cases hc : followupNextLoop rpc off (fl :: rest) with
        | ok rs' => exact ⟨rs', rfl⟩
        | error e =>
          exfalso
          rw [followupNextLoop] at hc
          simp [bind, Except.bind, hbnx, hlix, hrs, pure, Except.pure] at hc

/-- Alternate flow: a successful next-blocks window issues exactly the three
single-block queries for blocks `B+1`, `B+2`, `B+3`. -/
theorem followupNextBlocks_queries (rpc : SwapRpc) (topic0 pool : String)
    (bn : Nat)
    (hl : ∀ off ∈ [1, 2, 3],
      ∀ fl ∈ (rpc.getLogs (followupOffsetQ pool topic0 (bn + off))).getD [],
        fuLogOk fl = true) :
    ∃ fus, followupNextBlocks rpc topic0 pool bn =
      .ok (fus, [followupOffsetQ pool topic0 (bn + 1),
        followupOffsetQ pool topic0 (bn + 2),
        followupOffsetQ pool topic0 (bn + 3)]) := by
  have s1 := hl 1 (by simp)
  have s2 := hl 2 (by simp)
  have s3 := hl 3 (by simp)
  unfold followupNextBlocks
  cases hlog1 : rpc.getLogs (followupOffsetQ pool topic0 (bn + 1)) with
  | none =>
    cases hlog2 : rpc.getLogs (followupOffsetQ pool topic0 (bn + 2)) with
    | none =>
      cases hlog3 : rpc.getLogs (followupOffsetQ pool topic0 (bn + 3)) with
      | none => exact ⟨([] ++ []) ++ [], by simp [bind, Except.bind, hlog1, hlog2, hlog3, pure, Except.pure]⟩
      | some ls3 =>
        rw [hlog3] at s3
        obtain ⟨rs3, h3⟩ := followupNextLoop_ok rpc 3 ls3 (by simpa using s3)
        exact ⟨([] ++ []) ++ rs3, by simp [bind, Except.bind, hlog1, hlog2, hlog3, h3, pure, Except.pure]⟩
    | some ls2 =>
      rw [hlog2] at s2
      obtain ⟨rs2, h2⟩ := followupNextLoop_ok rpc 2 ls2 (by simpa using s2)
      cases hlog3 : rpc.getLogs (followupOffsetQ pool topic0 (bn + 3)) with
      | none => exact ⟨([] ++ rs2) ++ [], by simp [bind, Except.bind, hlog1, hlog2, hlog3, h2, pure, Except.pure]⟩
      | some ls3 =>
        rw [hlog3] at s3
        obtain ⟨rs3, h3⟩ := followupNextLoop_ok rpc 3 ls3 (by simpa using s3)
        exact ⟨([] ++ rs2) ++ rs3, by simp [bind, Except.bind, hlog1, hlog2, hlog3, h2, h3, pure, Except.pure]⟩
  | some ls1 =>
    rw [hlog1] at s1
    obtain ⟨rs1, h1⟩ := followupNextLoop_ok rpc 1 ls1 (by simpa using s1)
    cases hlog2 : rpc.getLogs (followupOffsetQ pool topic0 (bn + 2)) with
    | none =>
      cases hlog3 : rpc.getLogs (followupOffsetQ pool topic0 (bn + 3)) with
      | none => exact ⟨(rs1 ++ []) ++ [], by simp [bind, Except.bind, hlog1, hlog2, hlog3, h1, pure, Except.pure]⟩
      | some ls3 =>
        rw [hlog3] at s3
        obtain ⟨rs3, h3⟩ := followupNextLoop_ok rpc 3 ls3 (by simpa using s3)
        exact ⟨(rs1 ++ []) ++ rs3, by simp [bind, Except.bind, hlog1, hlog2, hlog3, h1, h3, pure, Except.pure]⟩
    | some ls2 =>
      rw [hlog2] at s2
      obtain ⟨rs2, h2⟩ := followupNextLoop_ok rpc 2 ls2 (by simpa using s2)
      cases hlog3 : rpc.getLogs (followupOffsetQ pool topic0 (bn + 3)) with
      | none => exact ⟨(rs1 ++ rs2) ++ [], by simp [bind, Except.bind, hlog1, hlog2, hlog3, h1, h2, pure, Except.pure]⟩
      | some ls3 =>
        rw [hlog3] at s3
        obtain ⟨rs3, h3⟩ := followupNextLoop_ok rpc 3 ls3 (by simpa using s3)
        exact ⟨(rs1 ++ rs2) ++ rs3, by simp [bind, Except.bind, hlog1, hlog2, hlog3, h1, h2, h3, pure, Except.pure]⟩

/-- Conclusion of C7, shared with its witness: both flows issue exactly one
single-block ranged query per offset 1, 2, 3 over the origin block. -/
def C7Concl (th : String) (bn : Nat) (pool : String) (cache : BlockCache)
    (rpc : Rpc) (fmt : Nat → String) (rpc2 : SwapRpc) (topic0 pool2 : String)
    (bn2 : Nat) : Prop :=
  (∃ recs c', nextBlocksRun th bn pool cache rpc fmt =
    .ok (recs, [nbQuery bn 1 pool, nbQuery bn 2 pool, nbQuery bn 3 pool], c')) ∧
  (∀ off, (nbQuery bn off pool).fromBlock = pyHex (bn + off) ∧
    (nbQuery bn off pool).toBlock = pyHex (bn + off)) ∧
  (∃ fus, followupNextBlocks rpc2 topic0 pool2 bn2 =
    .ok (fus, [followupOffsetQ pool2 topic0 (bn2 + 1),
      followupOffsetQ pool2 topic0 (bn2 + 2),
      followupOffsetQ pool2 topic0 (bn2 + 3)])) ∧
  (∀ off, (followupOffsetQ pool2 topic0 (bn2 + off)).fromBlock = pyHex (bn2 + off) ∧
    (followupOffsetQ pool2 topic0 (bn2 + off)).toBlock = pyHex (bn2 + off))

/-- C7: for an origin block `B`, the next-blocks window of the primary flow
and of the alternate flow each issue exactly three independent single-block
ranged queries, one per block `B+1`, `B+2`, `B+3`, whatever the per-block
results are (any number of matches, including none). -/
theorem next_blocks_window_fixed (th : String) (bn : Nat) (pool : String)
    (cache : BlockCache) (rpc : Rpc) (fmt : Nat → String)
    (hc1 : blockOk (effectiveBlock rpc cache (pyHex (bn + 1))) = true)
    (hc2 : blockOk (effectiveBlock rpc cache (pyHex (bn + 2))) = true)
    (hc3 : blockOk (effectiveBlock rpc cache (pyHex (bn + 3))) = true)
    (hl : ∀ off ∈ [1, 2, 3], ∀ sl ∈ (rpc.getLogs (nbQuery bn off pool)).getD [],
      nbLogOk sl = true)
    (rpc2 : SwapRpc) (topic0 pool2 : String) (bn2 : Nat)
    (hl2 : ∀ off ∈ [1, 2, 3],
      ∀ fl ∈ (rpc2.getLogs (followupOffsetQ pool2 topic0 (bn2 + off))).getD [],
        fuLogOk fl = true) :
    C7Concl th bn pool cache rpc fmt rpc2 topic0 pool2 bn2 :=
  ⟨nextBlocksRun_queries th bn pool cache rpc fmt hc1 hc2 hc3 hl,
    fun _ => ⟨rfl, rfl⟩,
    followupNextBlocks_queries rpc2 topic0 pool2 bn2 hl2,
    fun _ => ⟨rfl, rfl⟩⟩

theorem next_blocks_window_fixed_witness :
    (blockOk (effectiveBlock nullRpc ([] : BlockCache) (pyHex (7 + 1))) = true) ∧
    (blockOk (effectiveBlock nullRpc ([] : BlockCache) (pyHex (7 + 2))) = true) ∧
    (blockOk (effectiveBlock nullRpc ([] : BlockCache) (pyHex (7 + 3))) = true) ∧
    (∀ off ∈ [1, 2, 3],
      ∀ sl ∈ (nullRpc.getLogs (nbQuery 7 off "0xp")).getD [], nbLogOk sl = true) ∧
    (∀ off ∈ [1, 2, 3],
      ∀ fl ∈ (nullSwapRpc.getLogs (followupOffsetQ "0xp" "0xt" (9 + off))).getD [],
        fuLogOk fl = true) ∧
    C7Concl "0xaa" 7 "0xp" ([] : BlockCache) nullRpc (fun _ => "") nullSwapRpc
      "0xt" "0xp" 9 := by
  have hc : ∀ k, blockOk (effectiveBlock nullRpc ([] : BlockCache) k) = true := by
    intro k; rfl
  have hl : ∀ off ∈ [1, 2, 3],
      ∀ sl ∈ (nullRpc.getLogs (nbQuery 7 off "0xp")).getD [], nbLogOk sl = true := by
    intro off _ sl hsl
    simp [nullRpc] at hsl
  have hl2 : ∀ off ∈ [1, 2, 3],
      ∀ fl ∈ (nullSwapRpc.getLogs (followupOffsetQ "0xp" "0xt" (9 + off))).getD [],
        fuLogOk fl = true := by
    intro off _ fl hfl
    simp [nullSwapRpc] at hfl
  exact ⟨hc _, hc _, hc _, hl, hl2,
    next_blocks_window_fixed "0xaa" 7 "0xp" [] nullRpc (fun _ => "")
      (hc _) (hc _) (hc _) hl nullSwapRpc "0xt" "0xp" 9 hl2⟩

/-- A next-block record carries the block-time string it was built with. -/
theorem mkNBRec_time (th : String) (bn : Nat) (pool t : String) (sl : LogEntry)
    (r : NBRec) (h : mkNBRec th bn pool t sl = .ok r) :
    r.observed_block_time = t := by
  unfold mkNBRec at h
  cases hd : decode_swap sl with
  | error e =>
    simp only [bind, Except.bind, hd] at h
    exact Except.noConfusion h
  | ok d =>
    simp only [bind, Except.bind, hd] at h
    cases hli : parseLogIndexField sl.logIndex with
    | error e =>
      simp only [hli] at h
      exact Except.noConfusion h
    | ok li =>
      simp only [hli] at h
      cases hbn : parseBlockNumberField sl.blockNumber with
      | error e =>
        simp only [hbn] at h
        exact Except.noConfusion h
      | ok ob =>
        simp only [hbn] at h
        cases ht : sl.topics with
        | none =>
          simp only [dictGet, ht] at h
          exact Except.noConfusion h
        | some ts =>
          simp only [dictGet, ht, listGet] at h
          cases ht0 : ts[0]? with
          | none =>
            rw [ht0] at h
            exact Except.noConfusion h
          | some t0 =>
            rw [ht0] at h
            simp only [pure, Except.pure, Except.ok.injEq] at h
            rw [← h]

/-- Every record of one next-block window carries that window's block time. -/
theorem nbLogsLoop_time (th : String) (bn : Nat) (pool t : String) :
    ∀ ls rs, nbLogsLoop th bn pool t ls = .ok rs →
      ∀ r ∈ rs, r.observed_block_time = t := by
  intro ls
  induction ls with
  | nil =>
    intro rs h r hr
    rw [nbLogsLoop] at h
    cases h
    simp at hr
  | cons sl rest ih =>
    intro rs h r hr
    rw [nbLogsLoop] at h
    cases hm : mkNBRec th bn pool t sl with
    | error e =>
      simp only [bind, Except.bind, hm] at h
      exact Except.noConfusion h
    | ok r0 =>
      simp only [bind, Except.bind, hm] at h
      cases hl : nbLogsLoop th bn pool t rest with
      | error e =>
        simp only [hl] at h
        exact Except.noConfusion h
      | ok rest' =>
        simp only [hl, pure, Except.pure, Except.ok.injEq] at h
        subst h
        rcases List.mem_cons.mp hr with heq | hmem
        · subst heq
          exact mkNBRec_time th bn pool t sl r hm
        · exact ih rest' hl r hmem

/-- Every same-block-after record carries the origin window's block time. -/
theorem sba_time (th : String) (ti bn : Nat) (bt pool : String) :
    ∀ ls recs, sameBlockAfterLoop th ti bn bt pool ls = .ok recs →
      ∀ r ∈ recs, r.observed_block_time = bt := by
  intro ls
  induction ls with
  | nil =>
    intro recs h r hr
    rw [sameBlockAfterLoop] at h
    cases h
    simp at hr
  | cons sl rest ih =>
    intro recs h r hr
    rcases sba_cons_inv th ti bn bt pool sl rest recs h with
      ⟨_, h2⟩ | ⟨n, _, _, _, h2⟩ |
      ⟨n, d, li, ts, t0, rest', _, _, _, _, _, _, _, h2, hrec⟩
    · exact ih recs h2 r hr
    · exact ih recs h2 r hr
    · subst hrec
      rcases List.mem_cons.mp hr with heq | hmem
      · subst heq; rfl
      · exact ih rest' h2 r hmem

/-- `resolveBlockTime` never overwrites an existing cache entry. -/
theorem resolveBlockTime_preserves (key : String) (cache : BlockCache)
    (rpc : Rpc) (fmt : Nat → String) (t : String) (c' : BlockCache)
    (h : resolveBlockTime key cache rpc fmt = .ok (t, c')) :
    ∀ k v, cacheLookup cache k = some v → cacheLookup c' k = some v := by
  intro k v hk
  unfold resolveBlockTime at h
  by_cases hc : (cacheLookup cache key).isSome
  · rw [if_pos hc] at h
    have : c' = cache := by
      cases hlk : cacheLookup cache key with
      | none => rw [hlk] at hc; simp at hc
      | some w =>
        simp only [hlk] at h
        cases w with
        | none =>
          simp only [Except.ok.injEq, Prod.mk.injEq] at h
          exact h.2.symm ▸ rfl
        | some blk =>
          cases hts : blk.timestamp with
          | none =>
            simp only [dictGet, hts, bind, Except.bind] at h
            exact Except.noConfusion h
          | some ts =>
            simp only [dictGet, hts, bind, Except.bind] at h
            cases hx : hex_to_int ts with
            | error e =>
              rw [hx] at h
              exact Except.noConfusion h
            | ok n =>
              rw [hx] at h
              simp only [Except.ok.injEq, Prod.mk.injEq] at h
              exact h.2.symm ▸ rfl
    rw [this]
    exact hk
  · rw [if_neg hc] at h
    have hnone : cacheLookup cache key = none := by
      cases hlk : cacheLookup cache key with
      | none => rfl
      | some w => rw [hlk] at hc; simp at hc
    have hkk : key ≠ k := by
      intro he
      rw [he] at hnone
      rw [hnone] at hk
      exact Option.noConfusion hk
    have hpres : cacheLookup (cacheInsert cache key (rpc.getBlock key)) k = some v := by
      rw [cacheLookup_insert_other cache key k _ hkk]
      exact hk
    simp only [cacheLookup_insert_self] at h
    cases hb : rpc.getBlock key with
    | none =>
      rw [hb] at h
      simp only [Except.ok.injEq, Prod.mk.injEq] at h
      rw [← h.2]
      rw [hb] at hpres
      exact hpres
    | some blk =>
      rw [hb] at h
      dsimp only at h
      cases hts : blk.timestamp with
      | none =>
        simp only [dictGet, hts, bind, Except.bind] at h
        exact Except.noConfusion h
      | some ts =>
        simp only [dictGet, hts, bind, Except.bind] at h
        cases hx : hex_to_int ts with
        | error e =>
          rw [hx] at h
          exact Except.noConfusion h
        | ok n =>
          rw [hx] at h
          simp only [Except.ok.injEq, Prod.mk.injEq] at h
          rw [← h.2]
          rw [hb] at hpres
          exact hpres

/-- One next-block offset never overwrites an existing cache entry. -/
theorem nextBlockOffset_preserves (th : String) (bn : Nat) (pool : String)
    (off : Nat) (cache : BlockCache) (rpc : Rpc) (fmt : Nat → String)
    (recs : List NBRec) (q : GetLogsQuery) (c' : BlockCache)
    (h : nextBlockOffset th bn pool off cache rpc fmt = .ok (recs, q, c')) :
    ∀ k v, cacheLookup cache k = some v → cacheLookup c' k = some v := by
  intro k v hk
  unfold nextBlockOffset at h
  cases hres : resolveBlockTime (pyHex (bn + off)) cache rpc fmt with
  | error e =>
    simp only [bind, Except.bind, hres] at h
    exact Except.noConfusion h
  | ok tc =>
    obtain ⟨t, c1⟩ := tc
    simp only [bind, Except.bind, hres] at h
    have hp := resolveBlockTime_preserves (pyHex (bn + off)) cache rpc fmt t c1 hres k v hk
    cases hlog : rpc.getLogs { fromBlock := pyHex (bn + off), toBlock := pyHex (bn + off), address := pool, topics := swapTopicsFilter } with
    | none =>
      rw [hlog] at h
      simp only [Except.ok.injEq, Prod.mk.injEq] at h
      rw [← h.2.2]
      exact hp
    | some ls =>
      rw [hlog] at h
      cases hloop : nbLogsLoop th bn pool t ls with
      | error e =>
        simp only [hloop] at h
        exact Except.noConfusion h
      | ok rs =>
        simp only [hloop, pure, Except.pure, Except.ok.injEq, Prod.mk.injEq] at h
        rw [← h.2.2]
        exact hp

/-- The whole next-blocks window never overwrites an existing cache entry. -/
theorem nextBlocksRun_preserves (th : String) (bn : Nat) (pool : String)
    (cache : BlockCache) (rpc : Rpc) (fmt : Nat → String)
    (recs : List NBRec) (qs : List GetLogsQuery) (c' : BlockCache)
    (h : nextBlocksRun th bn pool cache rpc fmt = .ok (recs, qs, c')) :
    ∀ k v, cacheLookup cache k = some v → cacheLookup c' k = some v := by
  intro k v hk
  unfold nextBlocksRun at h
  cases h1 : nextBlockOffset th bn pool 1 cache rpc fmt with
  | error e =>
    simp only [bind, Except.bind, h1] at h
    exact Except.noConfusion h
  | ok rqc1 =>
    obtain ⟨r1, q1, c1⟩ := rqc1
    simp only [bind, Except.bind, h1] at h
    cases h2 : nextBlockOffset th bn pool 2 c1 rpc fmt with
    | error e =>
      simp only [h2] at h
      exact Except.noConfusion h
    | ok rqc2 =>
      obtain ⟨r2, q2, c2⟩ := rqc2
      simp only [h2] at h
      cases h3 : nextBlockOffset th bn pool 3 c2 rpc fmt with
      | error e =>
        simp only [h3] at h
        exact Except.noConfusion h
      | ok rqc3 =>
        obtain ⟨r3, q3, c3⟩ := rqc3
        simp only [h3, Except.ok.injEq, Prod.mk.injEq] at h
        have k1 := nextBlockOffset_preserves th bn pool 1 cache rpc fmt r1 q1 c1 h1 k v hk
        have k2 := nextBlockOffset_preserves th bn pool 2 c1 rpc fmt r2 q2 c2 h2 k v k1
        have k3 := nextBlockOffset_preserves th bn pool 3 c2 rpc fmt r3 q3 c3 h3 k v k2
        rw [← h.2.2]
        exact k3

/-- Time fields of same-block-after records, at the window level. -/
theorem sameBlockAfterRecords_time (th : String) (ti bn : Nat) (bt pool : String)
    (res : Option (List LogEntry)) (recs : List SBRec)
    (h : sameBlockAfterRecords th ti bn bt pool res = .ok recs) :
    ∀ r ∈ recs, r.observed_block_time = bt := by
  cases res with
  | none =>
    rw [sameBlockAfterRecords] at h
    cases h
    intro r hr
    simp at hr
  | some ls => exact sba_time th ti bn bt pool ls recs h

/-- Membership dispatch: a backrun-stream record in one backrun log's write
trace is the single backrun record written. -/
theorem backrun_mem_out (brec : BackrunRec) (txRecs : List TxSwapRec)
    (sbRecs : List SBRec) (nbRecs : List NBRec) (srow : SummaryRow)
    (r : BackrunRec)
    (hr : OutRec.backrun r ∈ OutRec.backrun brec :: (txRecs.map .txSwap ++
      sbRecs.map .sameBlockSwap ++ nbRecs.map .nextSwap ++ [OutRec.summary srow])) :
    r = brec := by
  simp only [List.mem_cons, List.mem_append, List.mem_map, List.mem_singleton,
    or_assoc] at hr
  rcases hr with heq | ⟨a, -, ha⟩ | ⟨a, -, ha⟩ | ⟨a, -, ha⟩ | heq2 | h0
  · exact OutRec.backrun.inj heq
  · exact OutRec.noConfusion ha
  · exact OutRec.noConfusion ha
  · exact OutRec.noConfusion ha
  · exact OutRec.noConfusion heq2
  · simp at h0

/-- Membership dispatch: a same-block-stream record in one backrun log's
write trace comes from the same-block-after window. -/
theorem sbs_mem_out (brec : BackrunRec) (txRecs : List TxSwapRec)
    (sbRecs : List SBRec) (nbRecs : List NBRec) (srow : SummaryRow)
    (r : SBRec)
    (hr : OutRec.sameBlockSwap r ∈ OutRec.backrun brec :: (txRecs.map .txSwap ++
      sbRecs.map .sameBlockSwap ++ nbRecs.map .nextSwap ++ [OutRec.summary srow])) :
    r ∈ sbRecs := by
  simp only [List.mem_cons, List.mem_append, List.mem_map, List.mem_singleton,
    or_assoc] at hr
  rcases hr with heq | ⟨a, ha2, ha⟩ | ⟨a, ha2, ha⟩ | ⟨a, ha2, ha⟩ | heq2 | h0
  · exact OutRec.noConfusion heq
  · exact OutRec.noConfusion ha
  · rw [OutRec.sameBlockSwap.inj ha] at ha2; exact ha2
  · exact OutRec.noConfusion ha
  · exact OutRec.noConfusion heq2
  · simp at h0

/-- One backrun log's processing: the backrun record and every same-block
record carry the origin block time, and the cache is never overwritten. -/
theorem processBackrunLog_spec (th : String) (bn : Nat) (bh bt tx_to sel : String)
    (ti : Nat) (logs : List LogEntry) (rpc : Rpc) (fmt : Nat → String)
    (bl : LogEntry) (cache : BlockCache) (out : List OutRec) (c' : BlockCache)
    (h : processBackrunLog th bn bh bt tx_to sel ti logs rpc fmt bl cache =
      .ok (out, c')) :
    (∀ r, OutRec.backrun r ∈ out → r.block_time = bt) ∧
    (∀ r, OutRec.sameBlockSwap r ∈ out → r.observed_block_time = bt) ∧
    (∀ k v, cacheLookup cache k = some v → cacheLookup c' k = some v) := by
  unfold processBackrunLog at h
  cases hp : parse_backrun_log bl with
  | error e =>
    simp only [bind, Except.bind, hp] at h
    exact Except.noConfusion h
  | ok parsed =>
    simp only [bind, Except.bind, hp] at h
    cases hli : parseLogIndexField bl.logIndex with
    | error e =>
      simp only [hli] at h
      exact Except.noConfusion h
    | ok blIdx =>
      simp only [hli] at h
      cases htx : sameTxSwaps th bn parsed.pool logs with
      | error e =>
        simp only [htx] at h
        exact Except.noConfusion h
      | ok txRecs =>
        simp only [htx] at h
        cases hsb : sameBlockAfterRecords th ti bn bt parsed.pool
            (rpc.getLogs { fromBlock := bh, toBlock := bh, address := parsed.pool, topics := swapTopicsFilter }) with
        | error e =>
          simp only [hsb] at h
          exact Except.noConfusion h
        | ok sbRecs =>
          simp only [hsb] at h
          cases hnb : nextBlocksRun th bn parsed.pool cache rpc fmt with
          | error e =>
            simp only [hnb] at h
            exact Except.noConfusion h
          | ok nbt =>
            obtain ⟨nbRecs, nbQs, c1⟩ := nbt
            simp only [hnb, Except.ok.injEq, Prod.mk.injEq] at h
            obtain ⟨hout, hc⟩ := h
            subst hc
            refine ⟨?_, ?_, ?_⟩
            · intro r hr
              rw [← hout] at hr
              rw [backrun_mem_out _ txRecs sbRecs nbRecs _ r hr]
            · intro r hr
              rw [← hout] at hr
              exact sameBlockAfterRecords_time th ti bn bt parsed.pool _ sbRecs hsb r
                (sbs_mem_out _ txRecs sbRecs nbRecs _ r hr)
            · exact fun k v hk =>
                nextBlocksRun_preserves th bn parsed.pool cache rpc fmt nbRecs nbQs c1 hnb k v hk

/-- The backrun-log loop: time fields and cache preservation. -/
theorem backrunLoop_spec (th : String) (bn : Nat) (bh bt tx_to sel : String)
    (ti : Nat) (logs : List LogEntry) (rpc : Rpc) (fmt : Nat → String) :
    ∀ bls cache out c' n,
      backrunLoop th bn bh bt tx_to sel ti logs rpc fmt bls cache =
        .ok (out, c', n) →
      (∀ r, OutRec.backrun r ∈ out → r.block_time = bt) ∧
      (∀ r, OutRec.sameBlockSwap r ∈ out → r.observed_block_time = bt) ∧
      (∀ k v, cacheLookup cache k = some v → cacheLookup c' k = some v) := by
  intro bls
  induction bls with
  | nil =>
    intro cache out c' n h
    rw [backrunLoop] at h
    simp only [Except.ok.injEq, Prod.mk.injEq] at h
    obtain ⟨h1, h2, _⟩ := h
    subst h1
    subst h2
    exact ⟨fun r hr => absurd hr (by simp), fun r hr => absurd hr (by simp),
      fun k v hk => hk⟩
  | cons bl rest ih =>
    intro cache out c' n h
    rw [backrunLoop] at h
    cases hone : processBackrunLog th bn bh bt tx_to sel ti logs rpc fmt bl cache with
    | error e =>
      simp only [bind, Except.bind, hone] at h
      exact Except.noConfusion h
    | ok oc =>
      obtain ⟨out1, c1⟩ := oc
      simp only [bind, Except.bind, hone] at h
      cases hrest : backrunLoop th bn bh bt tx_to sel ti logs rpc fmt rest c1 with
      | error e =>
        simp only [hrest] at h
        exact Except.noConfusion h
      | ok ocn =>
        obtain ⟨out2, c2, n2⟩ := ocn
        simp only [hrest, pure, Except.pure, Except.ok.injEq, Prod.mk.injEq] at h
        obtain ⟨hout, hc, _⟩ := h
        obtain ⟨p1, p2, p3⟩ := processBackrunLog_spec th bn bh bt tx_to sel ti
          logs rpc fmt bl cache out1 c1 hone
        obtain ⟨q1, q2, q3⟩ := ih c1 out2 c2 n2 hrest
        refine ⟨?_, ?_, ?_⟩
        · intro r hr
          rw [← hout] at hr
          rcases List.mem_append.mp hr with hm | hm
          · exact p1 r hm
          · exact q1 r hm
        · intro r hr
          rw [← hout] at hr
          rcases List.mem_append.mp hr with hm | hm
          · exact p2 r hm
          · exact q2 r hm
        · intro k v hk
          rw [← hc]
          exact q3 k v (p3 k v hk)

/-- A null block-by-number result is stored in the cache under the block's
key and yields an empty block-time, without failing. -/
theorem resolveBlockTime_null (key : String) (cache : BlockCache) (rpc : Rpc)
    (fmt : Nat → String) (hck : cacheLookup cache key = none)
    (hgb : rpc.getBlock key = none) :
    resolveBlockTime key cache rpc fmt = .ok ("", cacheInsert cache key none) := by
  unfold resolveBlockTime
  rw [if_neg (by rw [hck]; simp)]
  simp only [hgb, cacheLookup_insert_self]

/-- An offset block resolved to null: every record of that window carries an
empty block time, and null sits in the cache under that block's key. -/
theorem nextBlockOffset_null (th : String) (bn : Nat) (pool : String)
    (off : Nat) (cache : BlockCache) (rpc : Rpc) (fmt : Nat → String)
    (hck : cacheLookup cache (pyHex (bn + off)) = none)
    (hgb : rpc.getBlock (pyHex (bn + off)) = none)
    (recs : List NBRec) (q : GetLogsQuery) (c' : BlockCache)
    (h : nextBlockOffset th bn pool off cache rpc fmt = .ok (recs, q, c')) :
    (∀ r ∈ recs, r.observed_block_time = "") ∧
    cacheLookup c' (pyHex (bn + off)) = some none := by
  unfold nextBlockOffset at h
  simp only [resolveBlockTime_null _ cache rpc fmt hck hgb, bind,
    Except.bind] at h
  cases hlog : rpc.getLogs { fromBlock := pyHex (bn + off), toBlock := pyHex (bn + off), address := pool, topics := swapTopicsFilter } with
  | none =>
    rw [hlog] at h
    simp only [Except.ok.injEq, Prod.mk.injEq] at h
    obtain ⟨h1, _, h3⟩ := h
    subst h1
    refine ⟨fun r hr => absurd hr (by simp), ?_⟩
    rw [← h3, cacheLookup_insert_self]
  | some ls =>
    rw [hlog] at h
    dsimp only at h
    cases hloop : nbLogsLoop th bn pool "" ls with
    | error e =>
      rw [hloop] at h
      exact Except.noConfusion h
    | ok rs =>
      rw [hloop] at h
      simp only [pure, Except.pure, Except.ok.injEq, Prod.mk.injEq] at h
      obtain ⟨h1, _, h3⟩ := h
      subst h1
      refine ⟨nbLogsLoop_time th bn pool "" ls rs hloop, ?_⟩
      rw [← h3, cacheLookup_insert_self]

/-- The origin block resolved to null inside `process_tx`: all backrun and
same-block records carry an empty block time, null is cached under the origin
block's key, and processing completes rather than failing. -/
theorem process_tx_origin_null (tx : String) (cache : BlockCache) (rpc : Rpc)
    (fmt : Nat → String) (receipt : Receipt) (bh : String)
    (hrec : rpc.getReceipt tx = some receipt)
    (hbh : receipt.blockNumber = some bh)
    (hck : cacheLookup cache bh = none) (hgb : rpc.getBlock bh = none)
    (out : List OutRec) (c2 : BlockCache) (n : Nat)
    (hp : process_tx tx cache rpc fmt = .ok (out, c2, n)) :
    (∀ r, OutRec.backrun r ∈ out → r.block_time = "") ∧
    (∀ r, OutRec.sameBlockSwap r ∈ out → r.observed_block_time = "") ∧
    cacheLookup c2 bh = some none := by
  unfold process_tx at hp
  rw [hrec] at hp
  simp only [bind, Except.bind, dictGet, hbh] at hp
  cases hbi : hex_to_int bh with
  | error e =>
    rw [hbi] at hp
    exact Except.noConfusion hp
  | ok bn =>
    rw [hbi] at hp
    cases hti : parseTxIndexField receipt.transactionIndex with
    | error e =>
      rw [hti] at hp
      exact Except.noConfusion hp
    | ok ti =>
      rw [hti] at hp
      simp only [resolveBlockTime_null bh cache rpc fmt hck hgb, bind,
        Except.bind] at hp
      by_cases hb : ((receipt.logs.getD []).filter isBackrunLog).isEmpty
      · rw [if_pos hb] at hp
        simp only [Except.ok.injEq, Prod.mk.injEq] at hp
        obtain ⟨h1, h2, _⟩ := hp
        subst h1
        refine ⟨fun r hr => absurd hr (by simp),
          fun r hr => absurd hr (by simp), ?_⟩
        rw [← h2, cacheLookup_insert_self]
      · rw [if_neg hb] at hp
        obtain ⟨p1, p2, p3⟩ := backrunLoop_spec tx bn bh "" _ _ ti
          (receipt.logs.getD []) rpc fmt
          ((receipt.logs.getD []).filter isBackrunLog)
          (cacheInsert cache bh none) out c2 n hp
        exact ⟨p1, p2, p3 bh none (cacheLookup_insert_self cache bh none)⟩

/-- Conclusion of C10, shared with its witness. -/
def C10Concl (key : String) (cache : BlockCache) (rpc : Rpc)
    (fmt : Nat → String) (bn off : Nat) (recs : List NBRec) (c' : BlockCache)
    (out : List OutRec) (c2 : BlockCache) (bh : String) : Prop :=
  resolveBlockTime key cache rpc fmt = .ok ("", cacheInsert cache key none) ∧
  ((∀ r ∈ recs, r.observed_block_time = "") ∧
    cacheLookup c' (pyHex (bn + off)) = some none) ∧
  ((∀ r, OutRec.backrun r ∈ out → r.block_time = "") ∧
    (∀ r, OutRec.sameBlockSwap r ∈ out → r.observed_block_time = "") ∧
    cacheLookup c2 bh = some none)

/-- C10: a null block-by-number result — for the origin block or an offset
block — is stored in the cache under that block's key like any result, the
records of that window carry an empty block-time string, and processing of
the transaction continues instead of failing. -/
theorem block_null_never_aborts (key : String) (cache : BlockCache) (rpc : Rpc)
    (fmt : Nat → String)
    (hck : cacheLookup cache key = none) (hgb : rpc.getBlock key = none)
    (th : String) (bn off : Nat) (pool : String) (recs : List NBRec)
    (q : GetLogsQuery) (c' : BlockCache)
    (hcko : cacheLookup cache (pyHex (bn + off)) = none)
    (hgbo : rpc.getBlock (pyHex (bn + off)) = none)
    (hoff : nextBlockOffset th bn pool off cache rpc fmt = .ok (recs, q, c'))
    (tx : String) (cache0 : BlockCache) (receipt : Receipt) (bh : String)
    (hrec : rpc.getReceipt tx = some receipt)
    (hbh : receipt.blockNumber = some bh)
    (hck0 : cacheLookup cache0 bh = none) (hgb0 : rpc.getBlock bh = none)
    (out : List OutRec) (c2 : BlockCache) (n : Nat)
    (hp : process_tx tx cache0 rpc fmt = .ok (out, c2, n)) :
    C10Concl key cache rpc fmt bn off recs c' out c2 bh :=
  ⟨resolveBlockTime_null key cache rpc fmt hck hgb,
    nextBlockOffset_null th bn pool off cache rpc fmt hcko hgbo recs q c' hoff,
    process_tx_origin_null tx cache0 rpc fmt receipt bh hrec hbh hck0 hgb0
      out c2 n hp⟩

/-- Receipt used by the C10 witness. -/
def c10Receipt : Receipt :=
  { blockNumber := some "0x7", transactionIndex := some (.num 0)
    logs := some [] }

/-- Endpoint for the C10 witness: a receipt exists but every block query
returns null. -/
def c10Rpc : Rpc :=
  { getReceipt := fun _ => some c10Receipt
    getTx := fun _ => none
    getBlock := fun _ => none
    getLogs := fun _ => none }

theorem block_null_never_aborts_witness :
    (cacheLookup ([] : BlockCache) "0x9" = none) ∧
    (c10Rpc.getBlock "0x9" = none) ∧
    (cacheLookup ([] : BlockCache) (pyHex (7 + 1)) = none) ∧
    (c10Rpc.getBlock (pyHex (7 + 1)) = none) ∧
    (nextBlockOffset "0xaa" 7 "0xp" 1 ([] : BlockCache) c10Rpc (fun _ => "") =
      .ok ([], nbQuery 7 1 "0xp", cacheInsert [] (pyHex (7 + 1)) none)) ∧
    (c10Rpc.getReceipt "0xaa" = some c10Receipt) ∧
    (c10Receipt.blockNumber = some "0x7") ∧
    (cacheLookup ([] : BlockCache) "0x7" = none) ∧
    (c10Rpc.getBlock "0x7" = none) ∧
    (process_tx "0xaa" ([] : BlockCache) c10Rpc (fun _ => "") =
      .ok ([.errorRec "0xaa" "no_backrun_log"], cacheInsert [] "0x7" none, 0)) ∧
    C10Concl "0x9" ([] : BlockCache) c10Rpc (fun _ => "") 7 1 []
      (cacheInsert [] (pyHex (7 + 1)) none)
      [.errorRec "0xaa" "no_backrun_log"] (cacheInsert [] "0x7" none) "0x7" :=
  ⟨rfl, rfl, rfl, rfl, rfl, rfl, rfl, rfl, rfl, rfl,
    block_null_never_aborts "0x9" [] c10Rpc (fun _ => "") rfl rfl
      "0xaa" 7 1 "0xp" [] (nbQuery 7 1 "0xp") (cacheInsert [] (pyHex (7 + 1)) none)
      rfl rfl rfl
      "0xaa" [] c10Receipt "0x7" rfl rfl rfl rfl
      [.errorRec "0xaa" "no_backrun_log"] (cacheInsert [] "0x7" none) 0 rfl⟩

/-- Every record one swap-flow transaction emits is keyed by that
transaction's lowercased hash. -/
theorem swapsLogLoop_keys (rpc : SwapRpc) (topic0 tx_hash : String)
    (block_number : Nat) (block_time swapper : String) (tx_index : Nat)
    (receipt : Receipt) :
    ∀ ls recs, swapsLogLoop rpc topic0 tx_hash block_number block_time swapper
      tx_index receipt ls = .ok recs →
      ∀ r ∈ recs, r.original_tx = pyLower tx_hash := by
  intro ls
  induction ls with
  | nil =>
    intro recs h r hr
    rw [swapsLogLoop] at h
    cases h
    simp at hr
  | cons sl rest ih =>
    intro recs h r hr
    rw [swapsLogLoop] at h
    cases ha : sl.address with
    | none =>
      simp only [dictGet, ha, bind, Except.bind] at h
      exact Except.noConfusion h
    | some addr =>
      simp only [dictGet, ha, bind, Except.bind] at h
      cases hli : parse_log_index sl.logIndex with
      | error e =>
        rw [hli] at h
        exact Except.noConfusion h
      | ok li =>
        rw [hli] at h
        cases hbn : receipt.blockNumber with
        | none =>
          simp only [dictGet, hbn] at h
          exact Except.noConfusion h
        | some bh =>
          simp only [dictGet, hbn] at h
          cases hfu1 : followupSameBlock rpc tx_hash tx_index
              (rpc.getLogs { fromBlock := bh, toBlock := bh, address := addr_lower addr, topics := [[topic0]] }) with
          | error e =>
            rw [hfu1] at h
            exact Except.noConfusion h
          | ok fu1 =>
            rw [hfu1] at h
            cases hfu2 : followupNextBlocks rpc topic0 (addr_lower addr)
                block_number with
            | error e =>
              rw [hfu2] at h
              exact Except.noConfusion h
            | ok fq =>
              obtain ⟨fu2, qs⟩ := fq
              rw [hfu2] at h
              dsimp only at h
              cases hrest : swapsLogLoop rpc topic0 tx_hash block_number
                  block_time swapper tx_index receipt rest with
              | error e =>
                rw [hrest] at h
                exact Except.noConfusion h
              | ok rest' =>
                rw [hrest] at h
                simp only [pure, Except.pure, Except.ok.injEq] at h
                subst h
                rcases List.mem_cons.mp hr with heq | hmem
                · subst heq; rfl
                · exact ih rest' hrest r hmem

/-- Every record a swap-flow `process_tx` call emits is keyed by the
transaction's lowercased hash. -/
theorem swaps_process_tx_keys (rpc : SwapRpc) (topic0 tx_hash : String)
    (block_number : Nat) (block_time : String) (recs : List SwapRecord)
    (n : Nat)
    (h : swaps_process_tx rpc topic0 tx_hash block_number block_time =
      .ok (recs, n)) :
    ∀ r ∈ recs, r.original_tx = pyLower tx_hash := by
  unfold swaps_process_tx at h
  cases hrec : rpc.getReceipt tx_hash with
  | none =>
    rw [hrec] at h
    simp only [Except.ok.injEq, Prod.mk.injEq] at h
    obtain ⟨h1, _⟩ := h
    subst h1
    intro r hr
    simp at hr
  | some receipt =>
    rw [hrec] at h
    cases hti : parseTxIndexField receipt.transactionIndex with
    | error e =>
      simp only [bind, Except.bind, hti] at h
      exact Except.noConfusion h
    | ok ti =>
      simp only [bind, Except.bind, hti] at h
      by_cases hb : ((receipt.logs.getD []).filter (isTopic0Log topic0)).isEmpty
      · rw [if_pos hb] at h
        simp only [Except.ok.injEq, Prod.mk.injEq] at h
        obtain ⟨h1, _⟩ := h
        subst h1
        intro r hr
        simp at hr
      · rw [if_neg hb] at h
        cases hloop : swapsLogLoop rpc topic0 tx_hash block_number block_time
            (addr_lower (receipt.fromAddr.getD "")) ti receipt
            ((receipt.logs.getD []).filter (isTopic0Log topic0)) with
        | error e =>
          rw [hloop] at h
          exact Except.noConfusion h
        | ok recs' =>
          rw [hloop] at h
          simp only [pure, Except.pure, Except.ok.injEq, Prod.mk.injEq] at h
          obtain ⟨h1, _⟩ := h
          subst h1
          exact swapsLogLoop_keys rpc topic0 tx_hash block_number block_time
            (addr_lower (receipt.fromAddr.getD "")) ti receipt
            ((receipt.logs.getD []).filter (isTopic0Log topic0)) recs' hloop

/-- Every hash the resumable main loop actually processes is not in the done
set. -/
theorem swapsMainLoop_not_done (rpc : SwapRpc) (topic0 : String)
    (done : List String) :
    ∀ rows, ∀ h ∈ (swapsMainLoop rpc topic0 done rows).2, h ∉ done := by
  intro rows
  induction rows with
  | nil => intro h hh; simp [swapsMainLoop] at hh
  | cons row rest ih =>
    intro h hh
    rw [swapsMainLoop] at hh
    by_cases hd : row.tx_hash ∈ done
    · rw [if_pos hd] at hh
      exact ih h hh
    · rw [if_neg hd] at hh
      dsimp only at hh
      rcases List.mem_cons.mp hh with heq | hmem
      · subst heq; exact hd
      · exact ih h hmem

/-- Every processed hash comes from the input rows. -/
theorem swapsMainLoop_subset (rpc : SwapRpc) (topic0 : String)
    (done : List String) :
    ∀ rows, ∀ h ∈ (swapsMainLoop rpc topic0 done rows).2,
      h ∈ rows.map (·.tx_hash) := by
  intro rows
  induction rows with
  | nil => intro h hh; simp [swapsMainLoop] at hh
  | cons row rest ih =>
    intro h hh
    rw [swapsMainLoop] at hh
    by_cases hd : row.tx_hash ∈ done
    · rw [if_pos hd] at hh
      exact List.mem_cons_of_mem _ (ih h hh)
    · rw [if_neg hd] at hh
      dsimp only at hh
      rcases List.mem_cons.mp hh with heq | hmem
      · subst heq; exact List.mem_cons_self _ _
      · exact List.mem_cons_of_mem _ (ih h hmem)

/-- Every record the resumable main loop appends is keyed by a processed
(lowercase) hash that is not in the done set. -/
theorem swapsMainLoop_keys (rpc : SwapRpc) (topic0 : String)
    (done : List String) :
    ∀ rows, (∀ row ∈ rows, pyLower row.tx_hash = row.tx_hash) →
      ∀ r ∈ (swapsMainLoop rpc topic0 done rows).1, r.original_tx ∉ done := by
  intro rows
  induction rows with
  | nil => intro _ r hr; simp [swapsMainLoop] at hr
  | cons row rest ih =>
    intro hlow r hr
    rw [swapsMainLoop] at hr
    by_cases hd : row.tx_hash ∈ done
    · rw [if_pos hd] at hr
      exact ih (fun x hx => hlow x (List.mem_cons_of_mem _ hx)) r hr
    · rw [if_neg hd] at hr
      dsimp only at hr
      rcases List.mem_append.mp hr with hmem | hmem
      · cases hp : swaps_process_tx rpc topic0 row.tx_hash row.block_number
            row.block_time with
        | error e =>
          rw [hp] at hmem
          simp at hmem
        | ok rn =>
          obtain ⟨recs, n⟩ := rn
          rw [hp] at hmem
          dsimp only at hmem
          have hk := swaps_process_tx_keys rpc topic0 row.tx_hash
            row.block_number row.block_time recs n hp r hmem
          rw [hk, hlow row (List.mem_cons_self _ _)]
          exact hd
      · exact ih (fun x hx => hlow x (List.mem_cons_of_mem _ hx)) r hmem

/-- Conclusion of C9, shared with its witness. -/
def C9Concl (rpc : SwapRpc) (topic0 : String) (prior : List SwapRecord)
    (rows : List InputRow) : Prop :=
  (∀ row ∈ rows, row.tx_hash ∈ doneKeys prior →
    row.tx_hash ∉ (swapsMainLoop rpc topic0 (doneKeys prior) rows).2) ∧
  (∀ rec ∈ (swapsMainLoop rpc topic0 (doneKeys prior) rows).1,
    rec.original_tx ∉ doneKeys prior) ∧
  ((rows.map (·.tx_hash)).Nodup →
    (swapsMainLoop rpc topic0 (doneKeys prior) rows).2.Nodup)

/-- C9: resuming the alternate flow skips every input transaction whose key
already appears in the previously written stream; the re-invocation emits no
record keyed by a previously written origin hash, and (for duplicate-free
input) hands each origin transaction to processing at most once. -/
theorem resume_no_duplicate_keys (rpc : SwapRpc) (topic0 : String)
    (prior : List SwapRecord) (rows : List InputRow)
    (hlow : ∀ row ∈ rows, pyLower row.tx_hash = row.tx_hash) :
    C9Concl rpc topic0 prior rows := by
  refine ⟨?_, swapsMainLoop_keys rpc topic0 (doneKeys prior) rows hlow, ?_⟩
  · intro row _ hdone hmem
    exact swapsMainLoop_not_done rpc topic0 (doneKeys prior) rows
      row.tx_hash hmem hdone
  · intro hnd
    induction rows with
    | nil => simp [swapsMainLoop]
    | cons row rest ih =>
      rw [swapsMainLoop]
      simp only [List.map_cons, List.nodup_cons] at hnd
      by_cases hd : row.tx_hash ∈ doneKeys prior
      · rw [if_pos hd]
        exact ih (fun x hx => hlow x (List.mem_cons_of_mem _ hx)) hnd.2
      · rw [if_neg hd]
        dsimp only
        refine List.Nodup.cons ?_
          (ih (fun x hx => hlow x (List.mem_cons_of_mem _ hx)) hnd.2)
        intro hmem
        exact hnd.1 (swapsMainLoop_subset rpc topic0 (doneKeys prior) rest
          row.tx_hash hmem)

/-- Previously written output for the C9 witness. -/
def c9Prior : List SwapRecord :=
  [{ original_tx := "0xaa", block_number := 1, block_time := "", pool := ""
     swap_log_index := 0, swapper := "", raw_topics := [], raw_data := "0x"
     n_followup_swaps := 0, followup_swaps := [] }]

/-- Input rows for the C9 witness: the first is already done. -/
def c9Rows : List InputRow :=
  [{ block_time := "", tx_hash := "0xaa", block_number := 1, expected_count := 1 },
   { block_time := "", tx_hash := "0xbb", block_number := 2, expected_count := 1 }]

theorem resume_no_duplicate_keys_witness :
    (∀ row ∈ c9Rows, pyLower row.tx_hash = row.tx_hash) ∧
    C9Concl nullSwapRpc "0xt" c9Prior c9Rows := by
  have hlow : ∀ row ∈ c9Rows, pyLower row.tx_hash = row.tx_hash := by
    intro row hrow
    rcases List.mem_cons.mp hrow with heq | hrow2
    · subst heq; rfl
    · rcases List.mem_cons.mp hrow2 with heq | hrow3
      · subst heq; rfl
      · simp at hrow3
  exact ⟨hlow, resume_no_duplicate_keys nullSwapRpc "0xt" c9Prior c9Rows hlow⟩

/-- An accepted hex digit is `< 16` and re-encodes to the lowercase form of
the original character. -/
theorem hexDigit_spec (c : Char) (v : Nat) (h : hexDigit c = .ok v) :
    v < 16 ∧ hexDigitChar v = Char.toLower c := by
  unfold hexDigit at h
  split at h <;>
    first
      | (injection h with hv; subst hv; exact ⟨by decide, by decide⟩)
      | exact Except.noConfusion h

/-- `bytes.fromhex` halves the length and `bytes.hex()` returns the original
hex string lowercased. -/
theorem hexPairs_spec : ∀ cs bs, hexPairs cs = .ok bs →
    bs.length * 2 = cs.length ∧
    (bs.map byteHex).flatten = cs.map Char.toLower := by
  have main : ∀ n cs bs, cs.length ≤ n → hexPairs cs = .ok bs →
      bs.length * 2 = cs.length ∧
      (bs.map byteHex).flatten = cs.map Char.toLower := by
    intro n
    induction n with
    | zero =>
      intro cs bs hl h
      cases cs with
      | nil =>
        rw [hexPairs] at h
        cases h
        simp
      | cons c r => simp at hl
    | succ n ih =>
      intro cs bs hl h
      rcases cs with _ | ⟨c1, _ | ⟨c2, r⟩⟩
      · rw [hexPairs] at h
        cases h
        simp
      · rw [hexPairs] at h
        exact Except.noConfusion h
      · rw [hexPairs] at h
        cases hd1 : hexDigit c1 with
        | error e =>
          simp only [bind, Except.bind, hd1] at h
          exact Except.noConfusion h
        | ok v1 =>
          simp only [bind, Except.bind, hd1] at h
          cases hd2 : hexDigit c2 with
          | error e =>
            rw [hd2] at h
            exact Except.noConfusion h
          | ok v2 =>
            rw [hd2] at h
            cases hr : hexPairs r with
            | error e =>
              rw [hr] at h
              exact Except.noConfusion h
            | ok bs' =>
              rw [hr] at h
              simp only [pure, Except.pure, Except.ok.injEq] at h
              subst h
              obtain ⟨ihl, ihe⟩ := ih r bs' (by simp at hl; omega) hr
              obtain ⟨hv1, hc1⟩ := hexDigit_spec c1 v1 hd1
              obtain ⟨hv2, hc2⟩ := hexDigit_spec c2 v2 hd2
              constructor
              · simp only [List.length_cons]
                omega
              · simp only [List.map_cons, List.flatten_cons, ihe]
                have hdiv : (v1 * 16 + v2) / 16 = v1 := by omega
                have hmod : (v1 * 16 + v2) % 16 = v2 := by omega
                simp [byteHex, hdiv, hmod, hc1, hc2]
  exact fun cs bs h => main cs.length cs bs le_rfl h

/-- Dropping `k` bytes of a parsed hex string corresponds to dropping `2k`
characters of the source. -/
theorem hexPairs_drop : ∀ (k : Nat) (cs : List Char) (bs : List Nat),
    hexPairs cs = .ok bs → hexPairs (cs.drop (2 * k)) = .ok (bs.drop k) := by
  intro k
  induction k with
  | zero => intro cs bs h; simpa using h
  | succ k ih =>
    intro cs bs h
    rcases cs with _ | ⟨c1, _ | ⟨c2, r⟩⟩
    · rw [hexPairs] at h
      cases h
      simp [hexPairs]
    · rw [hexPairs] at h
      exact Except.noConfusion h
    · rw [hexPairs] at h
      cases hd1 : hexDigit c1 with
      | error e =>
        simp only [bind, Except.bind, hd1] at h
        exact Except.noConfusion h
      | ok v1 =>
        simp only [bind, Except.bind, hd1] at h
        cases hd2 : hexDigit c2 with
        | error e =>
          rw [hd2] at h
          exact Except.noConfusion h
        | ok v2 =>
          rw [hd2] at h
          cases hr : hexPairs r with
          | error e =>
            rw [hr] at h
            exact Except.noConfusion h
          | ok bs' =>
            rw [hr] at h
            simp only [pure, Except.pure, Except.ok.injEq] at h
            subst h
            have : 2 * (k + 1) = 2 * k + 2 := by omega
            rw [this]
            simpa using ih r bs' hr

/-- Modelled from the spec's words — "pool address equals `0x` followed by
the lowercase hex of the last 20 bytes of topic[1]" — for comparison against
the code's string-slicing implementation. -/
def specPoolAddress (topic1 : String) : Except String String := do
  let bs ← hex_to_bytes topic1
  .ok ("0x" ++ bytesToHex (bs.drop (bs.length - 20)))

/-- For a well-formed `bytes32` topic, the code's string slice
`"0x" + topic[-40:].lower()` equals the lowercase hex of the topic's last 20
bytes. -/
theorem lastN_hex_eq (h66 : String) (bs : List Nat)
    (hlen : h66.data.length = 64) (hex : hexPairs h66.data = .ok bs) :
    bytesToHex (bs.drop (bs.length - 20)) = pyLower (pyLastN ("0x" ++ h66) 40) := by
  have hbs : bs.length = 32 := by
    have := (hexPairs_spec h66.data bs hex).1
    omega
  have hdata : ("0x" ++ h66).data = '0' :: 'x' :: h66.data := by
    rw [String.data_append]
    rfl
  have hdrop : ("0x" ++ h66).data.drop (("0x" ++ h66).data.length - 40) =
      h66.data.drop 24 := by
    rw [hdata]
    simp only [List.length_cons, hlen]
    rfl
  have hp : hexPairs (h66.data.drop (2 * 12)) = .ok (bs.drop 12) :=
    hexPairs_drop 12 h66.data bs hex
  have hrt := (hexPairs_spec (h66.data.drop (2 * 12)) (bs.drop 12) hp).2
  rw [hbs]
  show bytesToHex (bs.drop 12) = pyLower (pyLastN ("0x" ++ h66) 40)
  unfold bytesToHex pyLower pyLastN
  rw [hdrop]
  show String.mk ((List.map byteHex (List.drop 12 bs)).flatten) =
    String.mk (List.map Char.toLower (List.drop 24 h66.data))
  exact congrArg String.mk (by simpa using hrt)

/-- Conclusion of C6, shared with its witness. -/
def C6Concl (l : LogEntry) (t1 : String) (dataBytes : List Nat) : Prop :=
  ∃ r, parse_backrun_log l = .ok r ∧
    specPoolAddress t1 = .ok r.pool ∧
    r.profit_raw = toString (uint256_from_bytes (pySlice dataBytes 96 128)) ∧
    (pySlice dataBytes 96 128).length = 32 ∧
    0 ≤ (uint256_from_bytes (pySlice dataBytes 96 128) : Int)

/-- C6: for a parsed backrun log with a `bytes32` topic[1] and a data payload
of at least 128 bytes, the pool address is `0x` plus the lowercase hex of the
last 20 bytes of topic[1], and the profit is the (non-negative) big-endian
unsigned integer of the 32-byte data slice at offset 96, stored as a decimal
string. -/
theorem backrun_pool_and_profit (l : LogEntry) (ts : List String)
    (t1 h66 dstr : String) (dataBytes bs : List Nat)
    (h1 : l.topics = some ts) (h2 : ts[1]? = some t1)
    (h3 : l.data = some dstr) (h4 : hex_to_bytes dstr = .ok dataBytes)
    (h5 : t1 = "0x" ++ h66) (h6 : h66.data.length = 64)
    (h7 : hex_to_bytes t1 = .ok bs) (h8 : 128 ≤ dataBytes.length) :
    C6Concl l t1 dataBytes := by
  have hstrip : stripHexPrefix t1.data = h66.data := by
    rw [h5, String.data_append]
    rfl
  have hpairs : hexPairs h66.data = .ok bs := by
    unfold hex_to_bytes at h7
    rw [hstrip] at h7
    exact h7
  refine ⟨{ pool := "0x" ++ pyLower (pyLastN t1 40)
            profit_raw := toString (uint256_from_bytes (pySlice dataBytes 96 128))
            profit_token := "0x" ++ bytesToHex (pySlice dataBytes 140 160) },
    ?_, ?_, rfl, ?_, Int.natCast_nonneg _⟩
  · unfold parse_backrun_log
    simp [dictGet, h1, listGet, h2, h3, bind, Except.bind, h4, pure, Except.pure]
  · unfold specPoolAddress
    simp only [bind, Except.bind, h7, pure, Except.pure]
    rw [h5, lastN_hex_eq h66 bs h6 hpairs]
  · unfold pySlice
    simp only [List.length_take, List.length_drop]
    omega

/-- Topic payload for the C6 witness: 62 zero digits then uppercase `AB`. -/
def c6h66 : String := "00000000000000000000000000000000000000000000000000000000000000AB"

def c6t1 : String := "0x" ++ c6h66

/-- 128-byte all-zero data payload for the C6 witness. -/
def c6dstr : String := "0x0000000000000000000000000000000000000000000000000000000000000000000000000000000000000000000000000000000000000000000000000000000000000000000000000000000000000000000000000000000000000000000000000000000000000000000000000000000000000000000000000000000000000000"

def c6Log : LogEntry := { topics := some ["0xt0", c6t1], data := some c6dstr }

set_option maxRecDepth 16384 in
theorem backrun_pool_and_profit_witness :
    (c6Log.topics = some ["0xt0", c6t1]) ∧
    ((["0xt0", c6t1] : List String)[1]? = some c6t1) ∧
    (c6Log.data = some c6dstr) ∧
    (hex_to_bytes c6dstr = .ok (List.replicate 128 0)) ∧
    (c6t1 = "0x" ++ c6h66) ∧
    (c6h66.data.length = 64) ∧
    (hex_to_bytes c6t1 = .ok (List.replicate 31 0 ++ [171])) ∧
    (128 ≤ (List.replicate 128 (0 : Nat)).length) ∧
    C6Concl c6Log c6t1 (List.replicate 128 0) :=
  ⟨rfl, rfl, rfl, rfl, rfl, rfl, rfl, by simp,
    backrun_pool_and_profit c6Log ["0xt0", c6t1] c6t1 c6h66 c6dstr
      (List.replicate 128 0) (List.replicate 31 0 ++ [171])
      rfl rfl rfl rfl rfl rfl (by rfl) (by simp)⟩
